import Mathlib

/-!
Verification of the pmoe-uigf-converter pipeline.

This file gives a shallow embedding, in Lean, of the data model and the
operations of `pm2uigf-pipeline.py` and `rank-mapping-tool.py`, and proves
properties of that embedding.

Modelling conventions:
* JSON objects with a known key set become structures whose fields are
  `Option`-valued; `none` models an absent key.  (A key present with JSON
  `null` is not distinguished from an absent key; the code under
  consideration treats the two the same everywhere it matters here.)
* Python dicts with dynamic string keys become association lists
  (`List (String × v)`); `alookup` models `d.get(k)` and `dinsert` models
  `d[k] = v` (replace in place, append when absent), matching dict
  semantics on duplicate-free key lists.
* Python strings are `String`; string ordering is modelled on `String.data`
  with Mathlib's lexicographic order on `List Char` (`Char` compares by
  code point, as in Python).  Python truthiness of a string is `≠ ""`.
* `list.sort(key=...)` (a stable sort) is modelled with `List.insertionSort`
  (also stable), over the same key order.
* Machine-level concerns (`datetime.now()`, HTTP fetches) are passed in as
  explicit parameters (`nowTs`, `nowStr`, `api`).
-/

namespace Pm2Uigf

/-- Python `a or b` on strings: `a` if truthy (non-empty), else `b`. -/
def pyOr (a b : String) : String := if a = "" then b else a

/-- Python `a or b` / `a.get(k, d.get(k))` on optional values: first `some` wins. -/
def oor {α : Type} (a b : Option α) : Option α :=
  match a with
  | some v => some v
  | none => b

/-- Dict lookup `d.get(k)` on an association list (first binding wins;
actual Python dicts have duplicate-free keys). -/
def alookup {β : Type} : List (String × β) → String → Option β
  | [], _ => none
  | (k1, v) :: rest, k => if k1 = k then some v else alookup rest k

/-- Dict assignment `d[k] = v`: replace the binding in place, append when absent. -/
def dinsert {β : Type} : List (String × β) → String → β → List (String × β)
  | [], k, v => [(k, v)]
  | (k1, v1) :: rest, k, v =>
    if k1 = k then (k1, v) :: rest else (k1, v1) :: dinsert rest k v

/-- Lookup in a string-valued dict, with `""` for a missing key (missing and
empty are interchangeable downstream, where values are only tested for
truthiness). -/
def dget (m : List (String × String)) (k : String) : String :=
  (alookup m k).getD ""

/-- Python `s.lower()` (ASCII case folding; the data of interest is ASCII). -/
def strLower (s : String) : String := String.mk (s.data.map Char.toLower)

/-- Python `s.strip()` on a character list. -/
def stripChars (l : List Char) : List Char :=
  ((l.dropWhile Char.isWhitespace).reverse.dropWhile Char.isWhitespace).reverse

/-- Python `s.strip()`. -/
def pyStrip (s : String) : String := String.mk (stripChars s.data)

/-- `re.sub(r"\s+", " ", ·)`: replace each maximal whitespace run by a single
space.  The `pending` flag records an open whitespace run. -/
def collapseWs : Bool → List Char → List Char
  | pending, [] => if pending then [' '] else []
  | pending, c :: cs =>
    if c.isWhitespace then collapseWs true cs
    else if pending then ' ' :: c :: collapseWs false cs
    else c :: collapseWs false cs

/-- Python `s.replace("_", " ")` (single-character pattern). -/
def underscoreToSpace (l : List Char) : List Char :=
  l.map fun c => if c = '_' then ' ' else c

/-- `normalize_en_key` from `pm2uigf-pipeline.py`:
`re.sub(r"\s+", " ", s.replace("_", " ")).strip().lower()` for non-empty `s`,
else `""`. -/
def normalize_en_key (s : String) : String :=
  if s = "" then ""
  else strLower (pyStrip (String.mk (collapseWs false (underscoreToSpace s.data))))

/-- Python `w.capitalize()`: first character upper-cased, rest lower-cased. -/
def capitalizeWord : List Char → List Char
  | [] => []
  | c :: cs => c.toUpper :: cs.map Char.toLower

/-- Split on single spaces.  `norm.split()` in the source is applied to a
whitespace-collapsed, stripped string, where splitting on whitespace runs
coincides with splitting on single spaces and yields no empty words. -/
def splitSp : List Char → List (List Char)
  | [] => [[]]
  | c :: cs =>
    if c = ' ' then [] :: splitSp cs
    else
      match splitSp cs with
      | [] => [[c]]
      | w :: ws => (c :: w) :: ws

/-- `english_from_pmoe_id`: guess an English name from a pmoe id
(`" ".join(w.capitalize() for w in norm.split())`). -/
def english_from_pmoe_id (pmoe_id : String) : String :=
  let norm := normalize_en_key pmoe_id
  if norm = "" then ""
  else String.mk (List.intercalate [' '] ((splitSp norm.data).map capitalizeWord))

/-- Python `s.isdigit()` (ASCII digits; non-empty). -/
def isDigits (s : String) : Bool := !s.data.isEmpty && s.data.all Char.isDigit

/-- Numeric value of a digit string (`int(s)` on an all-digit string). -/
def natOfDigits (l : List Char) : Nat := l.foldl (fun a c => a * 10 + (c.toNat - 48)) 0

/-- Day count of a month, with Gregorian leap years (as `datetime`). -/
def daysInMonth (y m : Nat) : Nat :=
  if m = 2 then (if y % 4 = 0 ∧ (y % 100 ≠ 0 ∨ y % 400 = 0) then 29 else 28)
  else if m = 4 ∨ m = 6 ∨ m = 9 ∨ m = 11 then 30 else 31

/-- Numeric value of a digit character. -/
def digVal (c : Char) : Nat := c.toNat - 48

/-- `parse_time`'s success condition: the string parses under
`"%Y-%m-%d %H:%M:%S"` with a valid calendar date and time of day.  The model
requires the canonical fixed-width form (`strptime` additionally tolerates
1-digit month/day/hour/minute/second fields; nothing here depends on that). -/
def parse_time_ok (s : String) : Bool :=
  match s.data with
  | [y1, y2, y3, y4, '-', m1, m2, '-', d1, d2, ' ', h1, h2, ':', n1, n2, ':', c1, c2] =>
    [y1, y2, y3, y4, m1, m2, d1, d2, h1, h2, n1, n2, c1, c2].all Char.isDigit &&
    (let y := digVal y1 * 1000 + digVal y2 * 100 + digVal y3 * 10 + digVal y4
     let mo := digVal m1 * 10 + digVal m2
     let d := digVal d1 * 10 + digVal d2
     let h := digVal h1 * 10 + digVal h2
     let mi := digVal n1 * 10 + digVal n2
     let se := digVal c1 * 10 + digVal c2
     decide (1 ≤ y) && decide (1 ≤ mo) && decide (mo ≤ 12) && decide (1 ≤ d) &&
     decide (d ≤ daysInMonth y mo) && decide (h ≤ 23) && decide (mi ≤ 59) && decide (se ≤ 59))
  | _ => false

/-! ### Reference data -/

/-- One value blob of a weapons/characters catalog table (only the `name` and
`rarity` keys are ever read; `rarity` is kept stringified, as
`get_rank_from_pmoe_id` does with `str(r)`). -/
structure ItemInfo where
  name : Option String
  rarity : Option String
deriving DecidableEq

/-- One entry of the merged Paimon.moe dictionary.  `build_pmoe_dict` only ever
writes `name_en`/`name_jp`/`rarity`; the `name` field exists because
`get_item_names_from_pmoe_id` also reads a `"name"` key. -/
structure PmoeEntry where
  name_en : Option String
  name_jp : Option String
  rarity : Option String
  name : Option String
deriving DecidableEq

def emptyPmoeEntry : PmoeEntry := ⟨none, none, none, none⟩

/-- One word record of the Genshin Dictionary dataset. -/
structure GdWord where
  ja : Option String
  en : Option String
  zhCN : Option String
deriving DecidableEq

/-- The three translation maps built by `build_genshin_words_maps`. -/
structure GdMaps where
  en_to_ja : List (String × String)
  en_to_ja_norm : List (String × String)
  zh_to_ja : List (String × String)
deriving DecidableEq

def emptyGdMaps : GdMaps := ⟨[], [], []⟩

/-- A fetched JSON document, by shape: an object of catalog blobs, an object
mapping names to numeric ids, or the word-pair array. -/
inductive ApiVal where
  | obj (d : List (String × ItemInfo))
  | idTable (d : List (String × Nat))
  | words (ws : List GdWord)
deriving DecidableEq

/-- The result dict of `fetch_apis_parallel`, keyed by source name. -/
structure ApiResults where
  entries : List (String × ApiVal)
deriving DecidableEq

/-- `API_URLS`: the fetched sources.  (`fetch_apis_parallel` produces exactly
these keys in its result dict.) -/
def API_URLS : List (String × String) :=
  [("weapons_en", "https://raw.githubusercontent.com/MadeBaruna/paimon-moe/main/src/data/weapons/en.json"),
   ("weapons_ja", "https://raw.githubusercontent.com/MadeBaruna/paimon-moe/main/src/data/weapons/ja.json"),
   ("characters_en", "https://raw.githubusercontent.com/MadeBaruna/paimon-moe/main/src/data/furnishing/en.json"),
   ("characters_ja", "https://raw.githubusercontent.com/MadeBaruna/paimon-moe/main/src/data/furnishing/ja.json"),
   ("uigf_dict_en", "https://api.uigf.org/dict/genshin/en.json"),
   ("uigf_dict_ja", "https://api.uigf.org/dict/genshin/jp.json"),
   ("genshin_words", "https://dataset.genshin-dictionary.com/words.json")]

/-- `api_results.get(key, {})` read as a catalog table. -/
def apiDict (api : ApiResults) (key : String) : List (String × ItemInfo) :=
  match alookup api.entries key with
  | some (ApiVal.obj d) => d
  | _ => []

/-- `api_results.get(key, {})` read as a name-to-id table. -/
def apiIdTable (api : ApiResults) (key : String) : List (String × Nat) :=
  match alookup api.entries key with
  | some (ApiVal.idTable d) => d
  | _ => []

/-- `api_results.get(key, [])` read as the word list (a non-list value is
rejected by `build_genshin_words_maps`'s `isinstance` check, i.e. contributes
nothing). -/
def apiWords (api : ApiResults) (key : String) : List GdWord :=
  match alookup api.entries key with
  | some (ApiVal.words ws) => ws
  | _ => []

/-- The per-source update of one catalog entry in `build_pmoe_dict`: each of
the two relevant fields is set only if the info blob has the key and the
entry does not have the field yet (`if "name" in info and f"name_{lang}" not
in entry`, and likewise for `"rarity"`). -/
def fillEntry (isEn : Bool) (entry : PmoeEntry) (info : ItemInfo) : PmoeEntry :=
  if isEn then
    { entry with name_en := oor entry.name_en info.name, rarity := oor entry.rarity info.rarity }
  else
    { entry with name_jp := oor entry.name_jp info.name, rarity := oor entry.rarity info.rarity }

/-- One `for pmoe_id, info in data.items()` iteration of `build_pmoe_dict`
(`entry = pmoe.setdefault(pmoe_id, {})` followed by in-place field updates). -/
def pmoeStep (isEn : Bool) (pm : List (String × PmoeEntry)) (kv : String × ItemInfo) :
    List (String × PmoeEntry) :=
  dinsert pm kv.1 (fillEntry isEn ((alookup pm kv.1).getD emptyPmoeEntry) kv.2)

/-- Process one source table of `build_pmoe_dict`. -/
def procTable (isEn : Bool) (pm : List (String × PmoeEntry))
    (t : List (String × ItemInfo)) : List (String × PmoeEntry) :=
  t.foldl (pmoeStep isEn) pm

/-- The four catalog sources in their fixed iteration order, each tagged with
its language (the language of a source is decided by the `"en" in key`
substring test in the source, which holds exactly for the two `_en` keys). -/
def catalogSources (api : ApiResults) : List (Bool × List (String × ItemInfo)) :=
  [(true, apiDict api "weapons_en"), (false, apiDict api "weapons_ja"),
   (true, apiDict api "characters_en"), (false, apiDict api "characters_ja")]

/-- `build_pmoe_dict`: merge the four catalog sources, in the fixed order
`weapons_en, weapons_ja, characters_en, characters_ja`. -/
def build_pmoe_dict (api : ApiResults) : List (String × PmoeEntry) :=
  (catalogSources api).foldl (fun pm src => procTable src.1 pm src.2) []

/-- One word of `build_genshin_words_maps`. -/
def gdStep (m : GdMaps) (w : GdWord) : GdMaps :=
  match w.ja with
  | none => m
  | some ja =>
    let m1 :=
      match w.en with
      | some en =>
        let m2 := { m with en_to_ja := dinsert m.en_to_ja en ja }
        let nk := normalize_en_key en
        if nk = "" then m2
        else { m2 with en_to_ja_norm := dinsert m2.en_to_ja_norm nk ja }
      | none => m
    match w.zhCN with
    | some z => { m1 with zh_to_ja := dinsert m1.zh_to_ja z ja }
    | none => m1

/-- `build_genshin_words_maps`. -/
def build_genshin_words_maps (ws : List GdWord) : GdMaps :=
  ws.foldl gdStep emptyGdMaps

/-! ### Rank / item information -/

/-- `get_item_names_from_pmoe_id`:
`(data.get("name_en") or data.get("name", ""), data.get("name_jp", ""))`. -/
def get_item_names_from_pmoe_id (pmoe_id : String)
    (pmoe_dict : List (String × PmoeEntry)) : String × String :=
  let data := (alookup pmoe_dict pmoe_id).getD emptyPmoeEntry
  (pyOr (data.name_en.getD "") (data.name.getD ""), data.name_jp.getD "")

/-- `get_rank_from_pmoe_id` (`rarity` is stored stringified in the model). -/
def get_rank_from_pmoe_id (pmoe_id : String)
    (pmoe_dict : List (String × PmoeEntry)) : Option String :=
  ((alookup pmoe_dict pmoe_id).getD emptyPmoeEntry).rarity

/-- `get_item_id_from_name`: `str(uigf_dict.get(name, 0))`. -/
def get_item_id_from_name (name : String) (uigf_dict : List (String × Nat)) : String :=
  toString ((alookup uigf_dict name).getD 0)

/-- One candidate of the translation loop in `resolve_item_name`:
`en_to_ja.get(en_text) or en_to_ja_norm.get(normalize_en_key(en_text))`. -/
def tryEnText (gd : GdMaps) (t : String) : String :=
  pyOr (dget gd.en_to_ja t) (dget gd.en_to_ja_norm (normalize_en_key t))

/-- The `for en_text in (item_name_en, derived_en, raw_name)` loop of
`resolve_item_name`: skip falsy candidates, stop at the first hit. -/
def resolveJpLoop (gd : GdMaps) : List String → String
  | [] => ""
  | t :: rest =>
    if t = "" then resolveJpLoop gd rest
    else
      let r := tryEnText gd t
      if r = "" then resolveJpLoop gd rest else r

/-- Python `(locale or "").lower().startswith("ja")`, applied to the already
lower-cased string. -/
def startsJa (s : String) : Bool :=
  match s.data with
  | 'j' :: 'a' :: _ => true
  | _ => false

/-- The Japanese-name guess block of `resolve_item_name` (the candidate loop
followed by the `zh_to_ja` fallback on the raw name). -/
def jpGuess (gd : GdMaps) (item_name_en derived_en raw_name : String) : String :=
  let r := resolveJpLoop gd [item_name_en, derived_en, raw_name]
  if r = "" ∧ raw_name ≠ "" then dget gd.zh_to_ja raw_name else r

/-- The last-resort block of `resolve_item_name`: if both names are empty,
the raw name fills one of them, chosen by the locale. -/
def finalFallback (item_name_en item_name_jp raw_name locale : String) : String × String :=
  if item_name_en = "" ∧ item_name_jp = "" then
    if startsJa (strLower locale) then (item_name_en, raw_name)
    else (raw_name, item_name_jp)
  else (item_name_en, item_name_jp)

/-- `resolve_item_name` from `pm2uigf-pipeline.py`. -/
def resolve_item_name (pmoe_id raw_name : String) (pmoe_dict : List (String × PmoeEntry))
    (gd : GdMaps) (locale : String) : String × String :=
  let names := get_item_names_from_pmoe_id pmoe_id pmoe_dict
  let derived_en := english_from_pmoe_id pmoe_id
  let item_name_en := if names.1 = "" then pyOr derived_en raw_name else names.1
  let item_name_jp :=
    if names.2 = "" then jpGuess gd item_name_en derived_en raw_name else names.2
  finalFallback item_name_en item_name_jp raw_name locale

/-- An entry of the rank-override table (also the entry/batch format handled
by `rank-mapping-tool.py`). -/
structure OvItem where
  pmoe_id : Option String
  name_en : Option String
  name_jp : Option String
  gacha_type : Option String
  rank_type : Option String
deriving DecidableEq

def emptyOvItem : OvItem := ⟨none, none, none, none, none⟩

/-- `apply_rank_override`.  Each `if o_name := override.get(k):` walrus test
checks truthiness of the raw override value; the assigned value is then
`str(o_name).strip()`. -/
def apply_rank_override (pmoe_id item_name_en item_name_jp : String)
    (rank_type : Option String) (override_map : List (String × OvItem)) :
    String × String × Option String :=
  match alookup override_map pmoe_id with
  | none => (item_name_en, item_name_jp, rank_type)
  | some o =>
    let en :=
      match o.name_en with
      | some v => if v = "" then item_name_en else pyStrip v
      | none => item_name_en
    let jp :=
      match o.name_jp with
      | some v => if v = "" then item_name_jp else pyStrip v
      | none => item_name_jp
    let rk :=
      match o.rank_type with
      | some v => if v = "" then rank_type else some (pyStrip v)
      | none => rank_type
    (en, jp, rk)

/-! ### Paimon → UIGF v3 -/

/-- `infer_lang_from_locale`: `LANG_MAP.get((locale or "en").lower(), "en-us")`
with `LANG_MAP = {"ja": "ja-jp", "en": "en-us"}`. -/
def infer_lang_from_locale (locale : String) : String :=
  let l := strLower (pyOr locale "en")
  if l = "ja" then "ja-jp" else if l = "en" then "en-us" else "en-us"

/-- `infer_timezone_from_uid`: leading `'6'` → −5, leading `'7'` → 1, else 8. -/
def infer_timezone_from_uid (uid : String) : Int :=
  match uid.data with
  | [] => 8
  | c :: _ => if c = '6' then -5 else if c = '7' then 1 else 8

/-- `to_uigf_gacha_type`: `"301" if gacha_type == "400" else gacha_type`. -/
def to_uigf_gacha_type (gacha_type : String) : String :=
  if gacha_type = "400" then "301" else gacha_type

/-- One pull object of the Paimon export. -/
structure Pull where
  id : Option String
  name : Option String
  type : Option String
  time : Option String
deriving DecidableEq

/-- One banner-counter object (`counter.get("pulls") or []`). -/
structure Counter where
  pulls : Option (List Pull)
deriving DecidableEq

/-- The Paimon local-data export (the five banner keys of
`GACHA_BANNER_TYPES`; a missing or non-dict counter is `none`). -/
structure PaimonData where
  wishUid : Option String
  uid : Option String
  locale : Option String
  beginners : Option Counter
  characterEvent : Option Counter
  weaponEvent : Option Counter
  standard : Option Counter
  chronicled : Option Counter
deriving DecidableEq

/-- One UIGF record (intermediate v3 or final v4.1 item); `none` models an
absent key. -/
structure Rec where
  uigf_gacha_type : Option String
  gacha_type : Option String
  item_id : Option String
  time : Option String
  id : Option String
  count : Option String
  name : Option String
  item_type : Option String
  rank_type : Option String
deriving DecidableEq

/-- Python `w.capitalize()` on a string. -/
def capitalizePy (s : String) : String := String.mk (capitalizeWord s.data)

/-- `build_uigf_record`.  Returns `none` (the record is dropped) when the
pull's time is missing, empty, or unparseable. -/
def build_uigf_record (pull : Pull) (gacha_type : String) (pmoe_id : String)
    (item_name_en item_name_jp item_id : String) (rank_type : Option String)
    (rec_id : String) (lang : String) : Option Rec :=
  let time_str := pull.time.getD ""
  if time_str = "" ∨ parse_time_ok time_str = false then none
  else
    let display_name := if lang = "ja-jp" then item_name_jp else pyOr item_name_en item_name_jp
    let p_type := strLower (pull.type.getD "")
    let item_type : Option String :=
      if p_type = "weapon" ∨ p_type = "character" then
        some (if strLower lang = "ja-jp" then (if p_type = "weapon" then "武器" else "キャラクター")
              else capitalizePy p_type)
      else none
    some { uigf_gacha_type := some (to_uigf_gacha_type gacha_type),
           gacha_type := some gacha_type,
           item_id := some item_id,
           time := some time_str,
           id := some rec_id,
           count := some "1",
           name := some (pyOr display_name (pull.name.getD "")),
           item_type := item_type,
           rank_type :=
             match rank_type with
             | some r => if r = "" then none else some r
             | none => none }

/-- The per-pull unresolved-item note (`missing_rank[pmoe_id] = {...}`). -/
structure MissingInfo where
  name_en : String
  name_jp : String
  gacha_type : String
deriving DecidableEq

/-- The mutable state of the record-building loop of `paimon_to_uigf_v3`. -/
structure GenState where
  synth : Nat
  recs : List Rec
  missing : List (String × MissingInfo)
deriving DecidableEq

/-- The reference data and run parameters fixed before the pull loop. -/
structure Ctx where
  pmoe_dict : List (String × PmoeEntry)
  uigf_dict : List (String × Nat)
  gd : GdMaps
  override_map : List (String × OvItem)
  locale : String
  lang : String

/-- The name/rank resolution of one pull (`resolve_item_name`,
`get_rank_from_pmoe_id`, `apply_rank_override` as chained in the loop body
of `paimon_to_uigf_v3`): the final `(item_name_en, item_name_jp, rank_type)`
triple. -/
def pullResolved (ctx : Ctx) (p : Pull) : String × String × Option String :=
  let pmoe_id := p.id.getD ""
  let raw_name := p.name.getD ""
  let names := resolve_item_name pmoe_id raw_name ctx.pmoe_dict ctx.gd ctx.locale
  apply_rank_override pmoe_id names.1 names.2
    (get_rank_from_pmoe_id pmoe_id ctx.pmoe_dict) ctx.override_map

/-- The `item_id` computed for one pull: lookup by resolved English name,
retried with the raw name when that yields `"0"` and the raw name is truthy. -/
def pullItemId (ctx : Ctx) (p : Pull) : String :=
  let raw_name := p.name.getD ""
  let names := resolve_item_name (p.id.getD "") raw_name ctx.pmoe_dict ctx.gd ctx.locale
  let item_id0 := get_item_id_from_name names.1 ctx.uigf_dict
  if item_id0 = "0" ∧ raw_name ≠ "" then get_item_id_from_name raw_name ctx.uigf_dict
  else item_id0

/-- The record built for one pull, given its (already incremented) synthetic
id counter value. -/
def pullEntry (ctx : Ctx) (gacha_type : String) (n : Nat) (p : Pull) : Option Rec :=
  build_uigf_record p gacha_type (p.id.getD "") (pullResolved ctx p).1
    (pullResolved ctx p).2.1 (pullItemId ctx p) (pullResolved ctx p).2.2
    (toString n) ctx.lang

/-- The body of the `for p in pulls` loop of `paimon_to_uigf_v3`: bump the
synthetic-id counter, append the built record (when not dropped), and note
the item under `missing_rank` when its rank is still unresolved. -/
def processPull (ctx : Ctx) (gacha_type : String) (st : GenState) (p : Pull) : GenState :=
  { synth := st.synth + 1,
    recs :=
      match pullEntry ctx gacha_type (st.synth + 1) p with
      | some e => st.recs ++ [e]
      | none => st.recs,
    missing :=
      if (pullResolved ctx p).2.2.getD "" = "" then
        dinsert st.missing (p.id.getD "")
          ⟨(pullResolved ctx p).1, (pullResolved ctx p).2.1, gacha_type⟩
      else st.missing }

/-- One banner of the `for counter_key, gacha_type_int in GACHA_BANNER_TYPES`
loop: a missing (or non-dict) counter contributes nothing. -/
def processCounter (ctx : Ctx) (st : GenState) (bc : Option Counter × String) : GenState :=
  match bc.1 with
  | none => st
  | some c => (c.pulls.getD []).foldl (processPull ctx bc.2) st

/-- `GACHA_BANNER_TYPES`, paired with the counters the five keys select in
the export (`str(gacha_type_int)` already applied). -/
def bannerCounters (d : PaimonData) : List (Option Counter × String) :=
  [(d.beginners, "100"), (d.characterEvent, "301"), (d.weaponEvent, "302"),
   (d.standard, "200"), (d.chronicled, "500")]

/-- `str(paimon_data.get("wish-uid") or paimon_data.get("uid") or "0")`. -/
def effUid (d : PaimonData) : String :=
  pyOr (d.wishUid.getD "") (pyOr (d.uid.getD "") "0")

/-- The initial synthetic-id counter:
`int(f"{uid}000000") if uid.isdigit() else int(datetime.now().timestamp())`. -/
def seedOf (uid : String) (nowTs : Nat) : Nat :=
  if isDigits uid then natOfDigits (uid.data ++ ['0', '0', '0', '0', '0', '0']) else nowTs

/-- The whole record-building loop of `paimon_to_uigf_v3` (before sorting). -/
def genState (d : PaimonData) (ctx : Ctx) (seed : Nat) : GenState :=
  (bannerCounters d).foldl (processCounter ctx) ⟨seed, [], []⟩

/-- The sort key order of `uigf_list.sort(key=lambda e: (e["time"], e["id"]))`:
Python tuple comparison of two string pairs. -/
def sortLe (a b : Rec) : Prop :=
  (a.time.getD "").data < (b.time.getD "").data ∨
    (a.time.getD "" = b.time.getD "" ∧ (a.id.getD "").data ≤ (b.id.getD "").data)

instance : DecidableRel sortLe := fun a b => inferInstanceAs (Decidable (_ ∨ _))

/-- The `info` header of a UIGF v3 document (fields optional so that stage 2
also accepts externally supplied v3 files). -/
structure V3Info where
  uid : Option String
  lang : Option String
  export_timestamp : Option Nat
  export_time : Option String
  export_app : Option String
  export_app_version : Option String
  uigf_version : Option String
  region_time_zone : Option Int
deriving DecidableEq

/-- A UIGF v3 document (`uigf_v3.get("info", {})` / `uigf_v3.get("list", [])`
are modelled by the all-`none` header and the empty list). -/
structure V3Doc where
  info : V3Info
  list : List Rec
deriving DecidableEq

/-- The reference data and run parameters of one `paimon_to_uigf_v3` run
(`api_results = fetch_apis_parallel()`, then the dictionary builds and the
locale/lang determination at the head of the function). -/
def pipelineCtx (paimon : PaimonData) (rank_override_map : List (String × OvItem))
    (api : ApiResults) : Ctx :=
  ⟨build_pmoe_dict api, apiIdTable api "uigf_dict",
   build_genshin_words_maps (apiWords api "genshin_words"), rank_override_map,
   pyOr (paimon.locale.getD "") "en",
   infer_lang_from_locale (pyOr (paimon.locale.getD "") "en")⟩

/-- The record list built by `paimon_to_uigf_v3` before the final sort. -/
def genRecs (paimon : PaimonData) (rank_override_map : List (String × OvItem))
    (api : ApiResults) (nowTs : Nat) : List Rec :=
  (genState paimon (pipelineCtx paimon rank_override_map api)
    (seedOf (effUid paimon) nowTs)).recs

/-- `paimon_to_uigf_v3`.  The fetched reference data and the current time are
explicit parameters (`api`, `nowTs`, `nowStr`). -/
def paimon_to_uigf_v3 (paimon : PaimonData) (export_app export_app_version : String)
    (rank_override_map : List (String × OvItem)) (api : ApiResults)
    (nowTs : Nat) (nowStr : String) : V3Doc × List (String × MissingInfo) :=
  let uid := effUid paimon
  let st := genState paimon (pipelineCtx paimon rank_override_map api) (seedOf uid nowTs)
  (⟨⟨some uid, some (infer_lang_from_locale (pyOr (paimon.locale.getD "") "en")),
     some nowTs, some nowStr, some export_app,
     some export_app_version, some "v3.0", some (infer_timezone_from_uid uid)⟩,
    List.insertionSort sortLe st.recs⟩,
   st.missing)

/-! ### UIGF v3 → v4.1 -/

/-- The `info` header of a UIGF v4.x document. -/
structure V41Info where
  export_timestamp : Option Nat
  export_app : Option String
  export_app_version : Option String
  version : String
deriving DecidableEq

/-- The single `hk4e` container of a UIGF v4.x document. -/
structure Hk4eBlock where
  uid : String
  timezone : Int
  lang : String
  list : List Rec
deriving DecidableEq

/-- A UIGF v4.x document. -/
structure V41Doc where
  info : V41Info
  hk4e : List Hk4eBlock
deriving DecidableEq

/-- The per-record translation of stage 2 (`uigf_v3_to_v41`'s loop body):
skip when `gacha_type` is falsy or the `time`/`id` keys are absent; remap only
the `uigf_gacha_type` field; coerce scalars to strings. -/
def v41Entry (r : Rec) : Option Rec :=
  let gacha_type := r.gacha_type.getD ""
  if gacha_type = "" ∨ r.time = none ∨ r.id = none then none
  else
    some { uigf_gacha_type := some (to_uigf_gacha_type (r.uigf_gacha_type.getD gacha_type)),
           gacha_type := some gacha_type,
           item_id := some (r.item_id.getD ""),
           time := r.time,
           id := some (r.id.getD ""),
           count := some (r.count.getD "1"),
           name := r.name,
           item_type := r.item_type,
           rank_type := r.rank_type }

/-- `uigf_v3_to_v41`. -/
def uigf_v3_to_v41 (doc : V3Doc) (version : String) : V41Doc :=
  ⟨⟨doc.info.export_timestamp, doc.info.export_app, doc.info.export_app_version, version⟩,
   [⟨doc.info.uid.getD "0", doc.info.region_time_zone.getD 8, doc.info.lang.getD "en-us",
     List.insertionSort sortLe (doc.list.filterMap v41Entry)⟩]⟩

/-- All records of a v4.1 document (the lists of its containers, in order). -/
def v41List (d : V41Doc) : List Rec := (d.hk4e.map Hk4eBlock.list).flatten

/-! ### rank-mapping-tool: merge -/

/-- `merge_override_entry` from `rank-mapping-tool.py`. -/
def merge_override_entry (new_item existing_entry : OvItem) : OvItem :=
  match new_item.rank_type with
  | none => existing_entry
  | some r =>
    if pyStrip r = "" then existing_entry
    else ⟨new_item.pmoe_id,
          oor new_item.name_en existing_entry.name_en,
          oor new_item.name_jp existing_entry.name_jp,
          oor new_item.gacha_type existing_entry.gacha_type,
          some r⟩

/-- One item of the dict comprehension
`{it.get("pmoe_id"): dict(it) for it in override_items if it.get("pmoe_id")}`. -/
def buildStep (m : List (String × OvItem)) (it : OvItem) : List (String × OvItem) :=
  match it.pmoe_id with
  | some k => if k = "" then m else dinsert m k it
  | none => m

/-- The dict comprehension keying the current override items by `pmoe_id`. -/
def buildOverrideMap (items : List OvItem) : List (String × OvItem) :=
  items.foldl buildStep []

/-- The body of the `for todo_item in todo_items` loop of `cmd_merge`:
`(map, added, updated)` state. -/
def mergeStep (acc : List (String × OvItem) × Nat × Nat) (t : OvItem) :
    List (String × OvItem) × Nat × Nat :=
  match t.pmoe_id with
  | none => acc
  | some k =>
    if k = "" then acc
    else
      let merged := merge_override_entry t ((alookup acc.1 k).getD emptyOvItem)
      if merged.rank_type.getD "" = "" then acc
      else
        match alookup acc.1 k with
        | some _ => (dinsert acc.1 k merged, acc.2.1, acc.2.2 + 1)
        | none => (dinsert acc.1 k merged, acc.2.1 + 1, acc.2.2)

/-- The string order used for `sorted(override_map.keys())`, via `.data`. -/
def keyLe (a b : String) : Prop := a.data ≤ b.data

instance : DecidableRel keyLe := fun a b => inferInstanceAs (Decidable (_ ≤ _))

/-- `cmd_merge`, reduced to its data content: the items list of the override
file and of the todo file, producing the new items list together with the
reported `(added, updated)` counts.  (File I/O and the untouched `version`
key of the override file are plumbing.) -/
def cmd_merge (override_items todo_items : List OvItem) :
    List OvItem × Nat × Nat :=
  let res := todo_items.foldl mergeStep (buildOverrideMap override_items, 0, 0)
  let keys := List.insertionSort keyLe (res.1.map Prod.fst)
  (keys.map (fun k => (alookup res.1 k).getD emptyOvItem), res.2.1, res.2.2)

/-! ## Basic lemmas -/

theorem strDataInj {a b : String} (h : a.data = b.data) : a = b :=
  congrArg String.mk h

theorem pyOr_ne_empty {a b : String} (h : b ≠ "") : pyOr a b ≠ "" := by
  unfold pyOr
  split
  · exact h
  · assumption

@[simp] theorem oor_none_left {α : Type} (b : Option α) : oor none b = b := rfl

@[simp] theorem oor_some {α : Type} (a : α) (b : Option α) : oor (some a) b = some a := rfl

@[simp] theorem oor_none_right {α : Type} (a : Option α) : oor a none = a := by
  cases a <;> rfl

theorem oor_assoc {α : Type} (a b c : Option α) : oor (oor a b) c = oor a (oor b c) := by
  cases a <;> cases b <;> rfl

theorem oor_self_absorb {α : Type} (a b : Option α) : oor a (oor a b) = oor a b := by
  cases a <;> rfl

@[simp] theorem alookup_dinsert_same {β : Type} (m : List (String × β)) (k : String) (v : β) :
    alookup (dinsert m k v) k = some v := by
  induction m with
  | nil => simp [dinsert, alookup]
  | cons kv rest ih =>
    obtain ⟨k1, v1⟩ := kv
    by_cases h : k1 = k <;> simp [dinsert, alookup, h, ih]

theorem alookup_dinsert_other {β : Type} (m : List (String × β)) (k k2 : String) (v : β)
    (h : k2 ≠ k) : alookup (dinsert m k v) k2 = alookup m k2 := by
  have h2 : k ≠ k2 := Ne.symm h
  induction m with
  | nil => simp [dinsert, alookup, h2]
  | cons kv rest ih =>
    obtain ⟨k1, v1⟩ := kv
    by_cases h1 : k1 = k
    · subst h1
      simp [dinsert, alookup, h2]
    · simp [dinsert, alookup, h1, ih]

theorem alookup_eq_none {β : Type} (m : List (String × β)) (k : String) :
    alookup m k = none ↔ k ∉ m.map Prod.fst := by
  induction m with
  | nil => simp [alookup]
  | cons kv rest ih =>
    obtain ⟨k1, v1⟩ := kv
    by_cases h : k1 = k
    · subst h
      simp [alookup]
    · simp [alookup, h, ih, Ne.symm h]

theorem alookup_some_mem {β : Type} {m : List (String × β)} {k : String} {v : β}
    (h : alookup m k = some v) : (k, v) ∈ m := by
  induction m with
  | nil => simp [alookup] at h
  | cons kv rest ih =>
    obtain ⟨k1, v1⟩ := kv
    by_cases h1 : k1 = k
    · subst h1
      rw [alookup, if_pos rfl] at h
      rw [Option.some_inj] at h
      subst h
      exact List.mem_cons_self _ _
    · rw [alookup, if_neg h1] at h
      exact List.mem_cons_of_mem _ (ih h)

theorem dinsert_keys_of_mem {β : Type} (m : List (String × β)) (k : String) (v : β)
    (h : k ∈ m.map Prod.fst) : (dinsert m k v).map Prod.fst = m.map Prod.fst := by
  induction m with
  | nil => simp at h
  | cons kv rest ih =>
    obtain ⟨k1, v1⟩ := kv
    by_cases h1 : k1 = k
    · simp [dinsert, h1]
    · rw [List.map_cons] at h
      rcases List.mem_cons.mp h with h | h
      · exact absurd h.symm h1
      · simp [dinsert, h1, ih h]

theorem dinsert_absent {β : Type} (m : List (String × β)) (k : String) (v : β)
    (h : alookup m k = none) : dinsert m k v = m ++ [(k, v)] := by
  induction m with
  | nil => simp [dinsert]
  | cons kv rest ih =>
    obtain ⟨k1, v1⟩ := kv
    by_cases h1 : k1 = k
    · simp [alookup, h1] at h
    · simp [alookup, h1] at h
      simp [dinsert, h1, ih h]

theorem alookup_isSome_dinsert {β : Type} (m : List (String × β)) (k k2 : String) (v : β)
    (h : (alookup m k2).isSome) : (alookup (dinsert m k v) k2).isSome := by
  by_cases hk : k2 = k
  · subst hk
    simp
  · rwa [alookup_dinsert_other _ _ _ _ hk]

/-! ## Order instances for the sort keys -/

instance : IsTrans Rec sortLe := by
  constructor
  intro a b c hab hbc
  rcases hab with h1 | ⟨h1, h2⟩ <;> rcases hbc with h3 | ⟨h3, h4⟩
  · exact Or.inl (lt_trans h1 h3)
  · exact Or.inl (congrArg String.data h3 ▸ h1)
  · exact Or.inl (congrArg String.data h1 ▸ h3)
  · exact Or.inr ⟨h1.trans h3, le_trans h2 h4⟩

instance : IsTotal Rec sortLe := by
  constructor
  intro a b
  rcases lt_trichotomy (a.time.getD "").data (b.time.getD "").data with h | h | h
  · exact Or.inl (Or.inl h)
  · have he : a.time.getD "" = b.time.getD "" := strDataInj h
    rcases le_total (a.id.getD "").data (b.id.getD "").data with h2 | h2
    · exact Or.inl (Or.inr ⟨he, h2⟩)
    · exact Or.inr (Or.inr ⟨he.symm, h2⟩)
  · exact Or.inr (Or.inl h)

instance : IsTrans String keyLe := by
  constructor
  intro a b c h1 h2
  exact le_trans h1 h2

instance : IsTotal String keyLe := by
  constructor
  intro a b
  exact le_total a.data b.data

instance : IsAntisymm String keyLe := by
  constructor
  intro a b h1 h2
  exact strDataInj (le_antisymm h1 h2)

/-! ## Claim C1 -/

/-- Claim C1: every output record list of the pipeline — the v3 list of
`paimon_to_uigf_v3` and the v4.1 list of `uigf_v3_to_v41` — is sorted so that
every adjacent pair `(a, b)` satisfies `a.time < b.time`, or
`a.time = b.time ∧ a.id ≤ b.id`, under lexicographic string comparison
(`sortLe`). -/
theorem C1_sorted_output (paimon : PaimonData) (ea eav : String)
    (ov : List (String × OvItem)) (api : ApiResults) (nowTs : Nat) (nowStr : String)
    (doc : V3Doc) (version : String) :
    List.Chain' sortLe (paimon_to_uigf_v3 paimon ea eav ov api nowTs nowStr).1.list ∧
    List.Chain' sortLe (v41List (uigf_v3_to_v41 doc version)) := by
  constructor
  · exact (List.sorted_insertionSort sortLe _).chain'
  · show List.Chain' sortLe ((List.insertionSort sortLe _ : List Rec) ++ [].flatten)
    rw [List.flatten_nil, List.append_nil]
    exact (List.sorted_insertionSort sortLe _).chain'

/-! ## Claim C2 -/

theorem finalFallback_of_en_ne {item_name_en : String} (item_name_jp raw_name locale : String)
    (h : item_name_en ≠ "") :
    finalFallback item_name_en item_name_jp raw_name locale = (item_name_en, item_name_jp) := by
  unfold finalFallback
  rw [if_neg]
  intro hc
  exact h hc.1

/-- The English component of `resolve_item_name` is never empty when the raw
display name is non-empty: the `item_name_en = derived_en or raw_name`
fallback already guarantees it. -/
theorem resolve_item_name_fst_ne {pmoe_id raw_name : String}
    (pmoe_dict : List (String × PmoeEntry)) (gd : GdMaps) (locale : String)
    (h : raw_name ≠ "") :
    (resolve_item_name pmoe_id raw_name pmoe_dict gd locale).1 ≠ "" := by
  have hen : (if (get_item_names_from_pmoe_id pmoe_id pmoe_dict).1 = ""
      then pyOr (english_from_pmoe_id pmoe_id) raw_name
      else (get_item_names_from_pmoe_id pmoe_id pmoe_dict).1) ≠ "" := by
    split
    · exact pyOr_ne_empty h
    · assumption
  simp only [resolve_item_name]
  rw [finalFallback_of_en_ne _ _ _ hen]
  exact hen

/-- Claim C2: for every internal identifier, raw display name, reference-data
state, and locale, if the raw display name is non-empty then
`resolve_item_name` returns a pair of which at least one component is
non-empty. -/
theorem C2_name_resolution_not_both_empty (pmoe_id raw_name : String)
    (pmoe_dict : List (String × PmoeEntry)) (gd : GdMaps) (locale : String)
    (h : raw_name ≠ "") :
    (resolve_item_name pmoe_id raw_name pmoe_dict gd locale).1 ≠ "" ∨
    (resolve_item_name pmoe_id raw_name pmoe_dict gd locale).2 ≠ "" :=
  Or.inl (resolve_item_name_fst_ne pmoe_dict gd locale h)

/-- Witness for C2 at a concrete input. -/
theorem C2_witness :
    ("Mika" : String) ≠ "" ∧
    ((resolve_item_name "mika" "Mika" [] emptyGdMaps "en").1 ≠ "" ∨
      (resolve_item_name "mika" "Mika" [] emptyGdMaps "en").2 ≠ "") :=
  ⟨by decide, C2_name_resolution_not_both_empty "mika" "Mika" [] emptyGdMaps "en" (by decide)⟩

/-! ## Claim C3 -/

@[simp] theorem pyOr_empty_right (a : String) : pyOr a "" = a := by
  unfold pyOr
  split <;> simp_all

/-- One loop candidate, guarded on truthiness (an empty candidate contributes
nothing): exact match first, then the normalized-key fallback. -/
def tryCand (gd : GdMaps) (t : String) : String :=
  if t = "" then "" else tryEnText gd t

/-- A candidate as the claim describes the raw display name: tried as an
exact match only, with no normalized-key fallback. -/
def tryCandExactOnly (gd : GdMaps) (t : String) : String :=
  if t = "" then "" else dget gd.en_to_ja t

/-- The claim's version of the translation lookup: English candidates get the
normalized-key fallback, the raw display name does not. -/
def jpGuessClaimed (gd : GdMaps) (item_name_en derived_en raw_name : String) : String :=
  let r := pyOr (tryCand gd item_name_en)
    (pyOr (tryCand gd derived_en) (tryCandExactOnly gd raw_name))
  if r = "" ∧ raw_name ≠ "" then dget gd.zh_to_ja raw_name else r

/-- `resolve_item_name` as claim C3 describes it (only the translation-lookup
block differs). -/
def resolve_item_name_claimed (pmoe_id raw_name : String)
    (pmoe_dict : List (String × PmoeEntry)) (gd : GdMaps) (locale : String) :
    String × String :=
  let names := get_item_names_from_pmoe_id pmoe_id pmoe_dict
  let derived_en := english_from_pmoe_id pmoe_id
  let item_name_en := if names.1 = "" then pyOr derived_en raw_name else names.1
  let item_name_jp :=
    if names.2 = "" then jpGuessClaimed gd item_name_en derived_en raw_name else names.2
  finalFallback item_name_en item_name_jp raw_name locale

/-- The amended description of the translation lookup: all three candidates,
including the raw display name, are tried exact-first with the normalized-key
fallback. -/
def jpGuessAmended (gd : GdMaps) (item_name_en derived_en raw_name : String) : String :=
  let r := pyOr (tryCand gd item_name_en)
    (pyOr (tryCand gd derived_en) (tryCand gd raw_name))
  if r = "" ∧ raw_name ≠ "" then dget gd.zh_to_ja raw_name else r

/-- `resolve_item_name` as amended claim C3 describes it. -/
def resolve_item_name_amended (pmoe_id raw_name : String)
    (pmoe_dict : List (String × PmoeEntry)) (gd : GdMaps) (locale : String) :
    String × String :=
  let names := get_item_names_from_pmoe_id pmoe_id pmoe_dict
  let derived_en := english_from_pmoe_id pmoe_id
  let item_name_en := if names.1 = "" then pyOr derived_en raw_name else names.1
  let item_name_jp :=
    if names.2 = "" then jpGuessAmended gd item_name_en derived_en raw_name else names.2
  finalFallback item_name_en item_name_jp raw_name locale

theorem resolveJpLoop_cons (gd : GdMaps) (t : String) (rest : List String) :
    resolveJpLoop gd (t :: rest) = pyOr (tryCand gd t) (resolveJpLoop gd rest) := by
  by_cases h : t = ""
  · simp [resolveJpLoop, tryCand, pyOr, h]
  · by_cases h2 : tryEnText gd t = "" <;>
      simp [resolveJpLoop, tryCand, pyOr, h, h2]

theorem jpGuess_eq_amended (gd : GdMaps) (item_name_en derived_en raw_name : String) :
    jpGuess gd item_name_en derived_en raw_name =
      jpGuessAmended gd item_name_en derived_en raw_name := by
  simp only [jpGuess, jpGuessAmended]
  rw [resolveJpLoop_cons, resolveJpLoop_cons, resolveJpLoop_cons]
  simp [resolveJpLoop]

/-- Reference data refuting claim C3: the translation table has no exact
entry, but it has a normalized-key entry that matches the normalized raw
display name. -/
def gdC3 : GdMaps := ⟨[], [("foo bar", "JP")], []⟩

/-- Catalog refuting claim C3: the English name comes from the catalog, so the
raw name is not an English candidate. -/
def pdC3 : List (String × PmoeEntry) := [("x", ⟨some "Alpha", none, none, none⟩)]

/-- Counterexample to claim C3 as stated: with catalog English name `"Alpha"`,
raw display name `"foo_bar"` and a translation table whose only entry is
keyed by the normalized raw name, the code resolves the localized name
through the normalized-key fallback applied to the raw display name
(yielding `"JP"`), which the claim says never happens — the claimed lookup
yields no localized name. -/
theorem C3_counterexample :
    resolve_item_name "x" "foo_bar" pdC3 gdC3 "en" = ("Alpha", "JP") ∧
    resolve_item_name_claimed "x" "foo_bar" pdC3 gdC3 "en" = ("Alpha", "") ∧
    resolve_item_name "x" "foo_bar" pdC3 gdC3 "en" ≠
      resolve_item_name_claimed "x" "foo_bar" pdC3 gdC3 "en" := by
  refine ⟨by decide, by decide, by decide⟩

/-- Amended claim C3: the translation lookup tries, in order, the resolved
English name, the derived-from-identifier name, and the raw display name,
each first as an exact match with the normalized-key fallback applied to
every candidate — including the raw display name; only after all of these
fail is the secondary-language exact lookup on the raw display name
attempted. -/
theorem C3_amended_lookup_order (pmoe_id raw_name : String)
    (pmoe_dict : List (String × PmoeEntry)) (gd : GdMaps) (locale : String) :
    resolve_item_name pmoe_id raw_name pmoe_dict gd locale =
      resolve_item_name_amended pmoe_id raw_name pmoe_dict gd locale := by
  simp only [resolve_item_name, resolve_item_name_amended, jpGuess_eq_amended]

/-! ## Claim C4 -/

/-- Field replacement as the code actually performs it: the override value is
used whenever it is truthy before trimming, and the stored replacement is the
trimmed value (so a whitespace-only override value clears the field). -/
def applyOverrideField (cur : String) (ov : Option String) : String :=
  match ov with
  | some v => if v = "" then cur else pyStrip v
  | none => cur

/-- Rank replacement, same rule. -/
def applyOverrideRank (cur : Option String) (ov : Option String) : Option String :=
  match ov with
  | some v => if v = "" then cur else some (pyStrip v)
  | none => cur

/-- Override entry refuting claim C4: `name_en` is a whitespace-only string
(truthy before trimming, empty after). -/
def ovC4 : List (String × OvItem) := [("x", ⟨some "x", some " ", none, none, none⟩)]

/-- Counterexample to claim C4 as stated: an override entry whose `name_en`
is the whitespace-only string `" "` replaces the already-set English name
`"Foo"` with the empty string — a set field is cleared, which the claim says
never happens. -/
theorem C4_counterexample :
    apply_rank_override "x" "Foo" "フー" (some "4") ovC4 = ("", "フー", some "4") ∧
    ("Foo" : String) ≠ "" ∧ pyStrip " " = "" := by
  refine ⟨by decide, by decide, by decide⟩

/-- Amended claim C4: with no entry for the identifier the triple passes
through unchanged; otherwise each of the three fields is replaced exactly
when the override supplies a truthy (non-empty, untrimmed) value, and the
replacement is that value trimmed of whitespace — so a whitespace-only
override value does clear the field. -/
theorem C4_amended_override (pmoe_id item_name_en item_name_jp : String)
    (rank_type : Option String) (override_map : List (String × OvItem)) :
    apply_rank_override pmoe_id item_name_en item_name_jp rank_type override_map =
      match alookup override_map pmoe_id with
      | none => (item_name_en, item_name_jp, rank_type)
      | some o => (applyOverrideField item_name_en o.name_en,
                   applyOverrideField item_name_jp o.name_jp,
                   applyOverrideRank rank_type o.rank_type) := by
  cases h : alookup override_map pmoe_id with
  | none => simp [apply_rank_override, h]
  | some o => simp [apply_rank_override, h, applyOverrideField, applyOverrideRank]

/-! ## Claims C8 and C5: stage 2 -/

theorem v41Entry_eq_none_iff (r : Rec) :
    v41Entry r = none ↔
      (r.gacha_type.getD "" = "" ∨ r.time = none ∨ r.id = none) := by
  simp only [v41Entry]
  split
  · next h => simp [h]
  · next h => simp [h]

/-- The final v4.1 record list is a permutation of the per-record translation
of the input list (the only further processing is the sort). -/
theorem v41List_perm (doc : V3Doc) (version : String) :
    (v41List (uigf_v3_to_v41 doc version)).Perm (doc.list.filterMap v41Entry) := by
  simp only [v41List, uigf_v3_to_v41, List.map_cons, List.map_nil,
    List.flatten_cons, List.flatten_nil, List.append_nil]
  exact List.perm_insertionSort sortLe _

/-- Intermediate record refuting claim C8: `time` and `id` keys present but
empty. -/
def recC8 : Rec := ⟨none, some "301", none, some "", some "", none, none, none, none⟩

def docC8 : V3Doc := ⟨⟨none, none, none, none, none, none, none, none⟩, [recC8]⟩

/-- Counterexample to claim C8 as stated: a record whose `time` and `id`
values are empty strings (but whose keys are present) is kept by stage 2,
while the claim says such a record is dropped. -/
theorem C8_counterexample :
    (v41List (uigf_v3_to_v41 docC8 "v4.1")).length = 1 ∧
    (v41List (uigf_v3_to_v41 docC8 "v4.1")).map Rec.time = [some ""] ∧
    (v41List (uigf_v3_to_v41 docC8 "v4.1")).map Rec.id = [some ""] := by
  refine ⟨by decide, by decide, by decide⟩

/-- Amended claim C8: stage 2 keeps an intermediate record if and only if its
banner-type code is present and non-empty and its timestamp and record-ID
keys are present — their values may be empty strings; dropped records are
simply skipped (the translation is total, so dropping never aborts the
run). -/
theorem C8_amended_inclusion (doc : V3Doc) (version : String) :
    (v41List (uigf_v3_to_v41 doc version)).Perm (doc.list.filterMap v41Entry) ∧
    ∀ r : Rec, v41Entry r ≠ none ↔
      (r.gacha_type.getD "" ≠ "" ∧ r.time ≠ none ∧ r.id ≠ none) := by
  refine ⟨v41List_perm doc version, fun r => ?_⟩
  rw [Ne, v41Entry_eq_none_iff]
  tauto

/-- Intermediate record as stage 1 emits it for a banner-type code `"400"`:
`uigf_gacha_type` already remapped to `"301"`, `gacha_type` kept `"400"`. -/
def recC5 : Rec :=
  ⟨some "301", some "400", none, some "2024-01-01 00:00:00", some "1", none, none, none, none⟩

def docC5 : V3Doc := ⟨⟨none, none, none, none, none, none, none, none⟩, [recC5]⟩

/-- Counterexample to claim C5 as stated: stage 2 remaps only
`uigf_gacha_type`; the `gacha_type` of the final record stays `"400"`, not
`"301"` as the claim asserts for both fields. -/
theorem C5_counterexample :
    (v41List (uigf_v3_to_v41 docC5 "v4.1")).map Rec.gacha_type = [some "400"] ∧
    (v41List (uigf_v3_to_v41 docC5 "v4.1")).map Rec.uigf_gacha_type = [some "301"] ∧
    (some "400" : Option String) ≠ some "301" := by
  refine ⟨by decide, by decide, by decide⟩

/-- Amended claim C5: for a pull with banner-type code `"400"`, the stage-1
record has `uigf_gacha_type` `"301"` and `gacha_type` unchanged at `"400"`;
stage 2 applies the banner remap only to the `uigf_gacha_type` field and
passes `gacha_type` through raw, so the final record has `uigf_gacha_type`
`"301"` and `gacha_type` still `"400"`. -/
theorem C5_amended_banner_remap :
    (∀ (pull : Pull) (pmoe_id item_name_en item_name_jp item_id : String)
        (rank_type : Option String) (rec_id lang : String) (e : Rec),
        build_uigf_record pull "400" pmoe_id item_name_en item_name_jp item_id
          rank_type rec_id lang = some e →
        e.uigf_gacha_type = some "301" ∧ e.gacha_type = some "400") ∧
    (∀ (doc : V3Doc) (version : String) (r : Rec), r ∈ doc.list →
        r.gacha_type = some "400" → r.uigf_gacha_type = some "301" →
        r.time ≠ none → r.id ≠ none →
        (v41Entry r).map Rec.uigf_gacha_type = some (some "301") ∧
        (v41Entry r).map Rec.gacha_type = some (some "400") ∧
        ∀ e, v41Entry r = some e → e ∈ v41List (uigf_v3_to_v41 doc version)) := by
  constructor
  · intro pull pmoe_id item_name_en item_name_jp item_id rank_type rec_id lang e he
    simp only [build_uigf_record] at he
    split at he
    · exact absurd he (by simp)
    · rw [Option.some_inj] at he
      subst he
      exact ⟨rfl, rfl⟩
  · intro doc version r hmem h400 h301 htime hid
    have hg : r.gacha_type.getD "" = "400" := by rw [h400]; rfl
    have hne : ¬(r.gacha_type.getD "" = "" ∨ r.time = none ∨ r.id = none) := by
      rw [hg]
      push_neg
      exact ⟨by decide, htime, hid⟩
    have hv : v41Entry r =
        some { uigf_gacha_type := some (to_uigf_gacha_type (r.uigf_gacha_type.getD (r.gacha_type.getD ""))),
               gacha_type := some (r.gacha_type.getD ""),
               item_id := some (r.item_id.getD ""),
               time := r.time,
               id := some (r.id.getD ""),
               count := some (r.count.getD "1"),
               name := r.name,
               item_type := r.item_type,
               rank_type := r.rank_type } := by
      simp only [v41Entry]
      rw [if_neg hne]
    refine ⟨?_, ?_, ?_⟩
    · rw [hv, hg, h301]
      simp [to_uigf_gacha_type]
    · rw [hv, hg]
      simp
    · intro e he
      exact ((v41List_perm doc version).mem_iff).mpr
        (List.mem_filterMap.mpr ⟨r, hmem, he⟩)

/-- The stage-1 record built for a `"400"` pull at a concrete input. -/
def pullC5 : Pull := ⟨none, none, none, some "2024-01-01 00:00:00"⟩

def e400C5 : Rec :=
  ⟨some "301", some "400", some "0", some "2024-01-01 00:00:00", some "1", some "1",
   some "E", none, none⟩

/-- The stage-2 output record for `recC5` at the concrete input. -/
def v41C5rec : Rec :=
  ⟨some "301", some "400", some "", some "2024-01-01 00:00:00", some "1", some "1",
   none, none, none⟩

/-- Witness for the amended claim C5 at concrete inputs. -/
theorem C5_witness :
    (build_uigf_record pullC5 "400" "m" "E" "J" "0" none "1" "en-us" = some e400C5 ∧
      e400C5.uigf_gacha_type = some "301" ∧ e400C5.gacha_type = some "400") ∧
    v41Entry recC5 = some v41C5rec ∧
    v41C5rec ∈ v41List (uigf_v3_to_v41 docC5 "v4.1") :=
  ⟨⟨by decide, C5_amended_banner_remap.1 pullC5 "m" "E" "J" "0" none "1" "en-us" e400C5 (by decide)⟩,
   by decide,
   (C5_amended_banner_remap.2 docC5 "v4.1" recC5 (List.mem_cons_self _ _) rfl rfl
      (by decide) (by decide)).2.2 v41C5rec (by decide)⟩

/-! ## Claim C6 -/

@[simp] theorem fillEntry_true_name_en (e : PmoeEntry) (i : ItemInfo) :
    (fillEntry true e i).name_en = oor e.name_en i.name := rfl

@[simp] theorem fillEntry_true_name_jp (e : PmoeEntry) (i : ItemInfo) :
    (fillEntry true e i).name_jp = e.name_jp := rfl

@[simp] theorem fillEntry_false_name_en (e : PmoeEntry) (i : ItemInfo) :
    (fillEntry false e i).name_en = e.name_en := rfl

@[simp] theorem fillEntry_false_name_jp (e : PmoeEntry) (i : ItemInfo) :
    (fillEntry false e i).name_jp = oor e.name_jp i.name := rfl

@[simp] theorem fillEntry_rarity (b : Bool) (e : PmoeEntry) (i : ItemInfo) :
    (fillEntry b e i).rarity = oor e.rarity i.rarity := by
  cases b <;> rfl

theorem procTable_lookup_notmem (isEn : Bool) (t : List (String × ItemInfo))
    (pm : List (String × PmoeEntry)) (id : String) (h : id ∉ t.map Prod.fst) :
    alookup (procTable isEn pm t) id = alookup pm id := by
  induction t generalizing pm with
  | nil => rfl
  | cons kv rest ih =>
    obtain ⟨k, info⟩ := kv
    rw [List.map_cons] at h
    have h1 : id ≠ k := fun hh => h (by simp [hh])
    have h2 : id ∉ rest.map Prod.fst := fun hh => h (by simp [hh])
    show alookup (procTable isEn (pmoeStep isEn pm (k, info)) rest) id = _
    rw [ih _ h2]
    unfold pmoeStep
    exact alookup_dinsert_other _ _ _ _ h1

theorem procTable_lookup (isEn : Bool) (t : List (String × ItemInfo))
    (pm : List (String × PmoeEntry)) (id : String) (hnd : (t.map Prod.fst).Nodup) :
    (alookup (procTable isEn pm t) id).getD emptyPmoeEntry =
      match alookup t id with
      | none => (alookup pm id).getD emptyPmoeEntry
      | some info => fillEntry isEn ((alookup pm id).getD emptyPmoeEntry) info := by
  induction t generalizing pm with
  | nil => rfl
  | cons kv rest ih =>
    obtain ⟨k, info⟩ := kv
    rw [List.map_cons, List.nodup_cons] at hnd
    obtain ⟨hknot, hndr⟩ := hnd
    by_cases hk : k = id
    · subst hk
      have hnm : k ∉ rest.map Prod.fst := hknot
      show (alookup (procTable isEn (pmoeStep isEn pm (k, info)) rest) k).getD emptyPmoeEntry = _
      rw [procTable_lookup_notmem _ _ _ _ hnm]
      unfold pmoeStep
      rw [alookup_dinsert_same]
      have hR : alookup ((k, info) :: rest) k = some info := by simp [alookup]
      rw [hR]
      rfl
    · have hid : id ≠ k := fun hh => hk hh.symm
      have hstep : alookup (pmoeStep isEn pm (k, info)) id = alookup pm id := by
        unfold pmoeStep
        exact alookup_dinsert_other _ _ _ _ hid
      show (alookup (procTable isEn (pmoeStep isEn pm (k, info)) rest) id).getD emptyPmoeEntry = _
      rw [ih _ hndr, hstep]
      have hR : alookup ((k, info) :: rest) id = alookup rest id := by simp [alookup, hk]
      rw [hR]

/-- The `name` value a given catalog source supplies for an identifier. -/
def sourceNameAt (api : ApiResults) (key id : String) : Option String :=
  (alookup (apiDict api key) id).bind ItemInfo.name

/-- The `rarity` value a given catalog source supplies for an identifier. -/
def sourceRarityAt (api : ApiResults) (key id : String) : Option String :=
  (alookup (apiDict api key) id).bind ItemInfo.rarity

/-- Amended claim C6, English-name field: the first source (in fixed order)
that has the field present wins, even when the supplied value is empty. -/
def specNameEn (api : ApiResults) (id : String) : Option String :=
  oor (sourceNameAt api "weapons_en" id) (sourceNameAt api "characters_en" id)

/-- Amended claim C6, localized-name field. -/
def specNameJp (api : ApiResults) (id : String) : Option String :=
  oor (sourceNameAt api "weapons_ja" id) (sourceNameAt api "characters_ja" id)

/-- Amended claim C6, rarity field (all four sources in fixed order). -/
def specRarity (api : ApiResults) (id : String) : Option String :=
  oor (oor (oor (sourceRarityAt api "weapons_en" id) (sourceRarityAt api "weapons_ja" id))
    (sourceRarityAt api "characters_en" id)) (sourceRarityAt api "characters_ja" id)

/-- Drop a present-but-empty value (for the claim's "first non-empty" rule). -/
def neOpt (a : Option String) : Option String :=
  a.bind fun v => if v = "" then none else some v

/-- Claim C6's version of the English-name rule: the first source whose value
is present *and non-empty* wins. -/
def specNameEnClaimed (api : ApiResults) (id : String) : Option String :=
  oor (neOpt (sourceNameAt api "weapons_en" id)) (neOpt (sourceNameAt api "characters_en" id))

/-- Reference data refuting claim C6: the earlier English source supplies an
empty name, the later one a non-empty name. -/
def apiC6 : ApiResults :=
  ⟨[("weapons_en", ApiVal.obj [("x", ⟨some "", none⟩)]),
    ("characters_en", ApiVal.obj [("x", ⟨some "Foo", none⟩)])]⟩

/-- Counterexample to claim C6 as stated: with `weapons_en` supplying
`name = ""` and `characters_en` supplying `name = "Foo"` for the same
identifier, the merged entry keeps the empty string — the first *present*
value wins, not the first *non-empty* one. -/
theorem C6_counterexample :
    ((alookup (build_pmoe_dict apiC6) "x").getD emptyPmoeEntry).name_en = some "" ∧
    specNameEnClaimed apiC6 "x" = some "Foo" ∧
    (some "" : Option String) ≠ some "Foo" := by
  refine ⟨by decide, by decide, by decide⟩

/-- Amended claim C6: when `build_pmoe_dict` merges the catalog source tables
in their fixed order, each entry field holds the value of the first source
that has the field present — even if that value is empty — and a later
source never overwrites a field already set. -/
theorem C6_amended_first_present_wins (api : ApiResults) (id : String)
    (h1 : ((apiDict api "weapons_en").map Prod.fst).Nodup)
    (h2 : ((apiDict api "weapons_ja").map Prod.fst).Nodup)
    (h3 : ((apiDict api "characters_en").map Prod.fst).Nodup)
    (h4 : ((apiDict api "characters_ja").map Prod.fst).Nodup) :
    ((alookup (build_pmoe_dict api) id).getD emptyPmoeEntry).name_en = specNameEn api id ∧
    ((alookup (build_pmoe_dict api) id).getD emptyPmoeEntry).name_jp = specNameJp api id ∧
    ((alookup (build_pmoe_dict api) id).getD emptyPmoeEntry).rarity = specRarity api id := by
  have hb : build_pmoe_dict api =
      procTable false
        (procTable true
          (procTable false
            (procTable true [] (apiDict api "weapons_en"))
            (apiDict api "weapons_ja"))
          (apiDict api "characters_en"))
        (apiDict api "characters_ja") := rfl
  rw [hb,
    procTable_lookup false (apiDict api "characters_ja") _ id h4,
    procTable_lookup true (apiDict api "characters_en") _ id h3,
    procTable_lookup false (apiDict api "weapons_ja") _ id h2,
    procTable_lookup true (apiDict api "weapons_en") _ id h1]
  cases hw : alookup (apiDict api "weapons_en") id <;>
    cases hwj : alookup (apiDict api "weapons_ja") id <;>
      cases hce : alookup (apiDict api "characters_en") id <;>
        cases hcj : alookup (apiDict api "characters_ja") id <;>
          simp [alookup, specNameEn, specNameJp, specRarity, sourceNameAt, sourceRarityAt,
            hw, hwj, hce, hcj, emptyPmoeEntry, oor_assoc]

/-- Witness for the amended claim C6 at a concrete input. -/
theorem C6_witness :
    ((alookup (build_pmoe_dict apiC6) "x").getD emptyPmoeEntry).name_en = specNameEn apiC6 "x" ∧
    ((alookup (build_pmoe_dict apiC6) "x").getD emptyPmoeEntry).name_jp = specNameJp apiC6 "x" ∧
    ((alookup (build_pmoe_dict apiC6) "x").getD emptyPmoeEntry).rarity = specRarity apiC6 "x" :=
  C6_amended_first_present_wins apiC6 "x" (by decide) (by decide) (by decide) (by decide)

/-! ## Claims C9 and C10: the record generator -/

theorem build_uigf_record_some_fields {pull : Pull}
    {gacha_type pmoe_id item_name_en item_name_jp item_id : String}
    {rank_type : Option String} {rec_id lang : String} {e : Rec}
    (h : build_uigf_record pull gacha_type pmoe_id item_name_en item_name_jp item_id
      rank_type rec_id lang = some e) :
    e.id = some rec_id ∧ e.item_id = some item_id := by
  simp only [build_uigf_record] at h
  split at h
  · exact absurd h (by simp)
  · rw [Option.some_inj] at h
    subst h
    exact ⟨rfl, rfl⟩

theorem pullItemId_of_empty_dict {ctx : Ctx} (p : Pull) (h : ctx.uigf_dict = []) :
    pullItemId ctx p = "0" := by
  simp only [pullItemId, get_item_id_from_name, h, alookup]
  split <;> rfl

theorem processPull_recs (ctx : Ctx) (gt : String) (st : GenState) (p : Pull) :
    (processPull ctx gt st p).recs = st.recs ∨
    ∃ e, (processPull ctx gt st p).recs = st.recs ++ [e] ∧
      e.id = some (toString (st.synth + 1)) ∧ e.item_id = some (pullItemId ctx p) := by
  cases hb : pullEntry ctx gt (st.synth + 1) p with
  | none => exact Or.inl (by simp [processPull, hb])
  | some e =>
    right
    refine ⟨e, by simp [processPull, hb], ?_, ?_⟩
    · unfold pullEntry at hb
      exact (build_uigf_record_some_fields hb).1
    · unfold pullEntry at hb
      exact (build_uigf_record_some_fields hb).2

/-- The per-banner pull-loop invariant: the counter advances by the number of
pulls, the appended records carry consecutive stringified counter values as
ids (strictly increasing, within the counter window), and with an empty
name-to-id dictionary every appended record has `item_id = "0"`. -/
theorem foldPulls_spec (ctx : Ctx) (gt : String) (pulls : List Pull) (st : GenState) :
    (pulls.foldl (processPull ctx gt) st).synth = st.synth + pulls.length ∧
    ∃ tail ns,
      (pulls.foldl (processPull ctx gt) st).recs = st.recs ++ tail ∧
      tail.map Rec.id = ns.map (fun n => some (toString n)) ∧
      List.Pairwise (· < ·) ns ∧
      (∀ n ∈ ns, st.synth < n ∧ n ≤ st.synth + pulls.length) ∧
      (ctx.uigf_dict = [] → ∀ r ∈ tail, r.item_id = some "0") := by
  induction pulls generalizing st with
  | nil => exact ⟨rfl, [], [], by simp, by simp, by simp, by simp, by simp⟩
  | cons p ps ih =>
    obtain ⟨ihs, tail, ns, hrecs, hmap, hpw, hbd, hiid⟩ := ih (processPull ctx gt st p)
    have hsynth1 : (processPull ctx gt st p).synth = st.synth + 1 := rfl
    constructor
    · rw [List.foldl_cons, ihs, hsynth1, List.length_cons]
      omega
    rcases processPull_recs ctx gt st p with hcase | ⟨e, hcase, hid, hitem⟩
    · refine ⟨tail, ns, ?_, hmap, hpw, ?_, hiid⟩
      · rw [List.foldl_cons, hrecs, hcase]
      · intro n hn
        have hb2 := hbd n hn
        rw [hsynth1] at hb2
        rw [List.length_cons]
        omega
    · refine ⟨e :: tail, (st.synth + 1) :: ns, ?_, ?_, ?_, ?_, ?_⟩
      · rw [List.foldl_cons, hrecs, hcase, List.append_assoc]
        rfl
      · simp [hid, hmap]
      · rw [List.pairwise_cons]
        refine ⟨fun n hn => ?_, hpw⟩
        have hb2 := hbd n hn
        rw [hsynth1] at hb2
        omega
      · intro n hn
        rw [List.length_cons]
        rcases List.mem_cons.mp hn with h | h
        · omega
        · have hb2 := hbd n h
          rw [hsynth1] at hb2
          omega
      · intro hd r hr
        rcases List.mem_cons.mp hr with h | h
        · rw [h, hitem, pullItemId_of_empty_dict p hd]
        · exact hiid hd r h

/-- Number of pulls contributed by one banner counter. -/
def bcLen (bc : Option Counter × String) : Nat :=
  match bc.1 with
  | none => 0
  | some c => (c.pulls.getD []).length

theorem processCounter_spec (ctx : Ctx) (bc : Option Counter × String) (st : GenState) :
    (processCounter ctx st bc).synth = st.synth + bcLen bc ∧
    ∃ tail ns,
      (processCounter ctx st bc).recs = st.recs ++ tail ∧
      tail.map Rec.id = ns.map (fun n => some (toString n)) ∧
      List.Pairwise (· < ·) ns ∧
      (∀ n ∈ ns, st.synth < n ∧ n ≤ st.synth + bcLen bc) ∧
      (ctx.uigf_dict = [] → ∀ r ∈ tail, r.item_id = some "0") := by
  obtain ⟨oc, gt⟩ := bc
  cases oc with
  | none => exact ⟨rfl, [], [], by simp [processCounter], by simp, by simp, by simp, by simp⟩
  | some c => exact foldPulls_spec ctx gt (c.pulls.getD []) st

/-- The whole-run generator invariant, across all banners. -/
theorem foldBanners_spec (ctx : Ctx) (bcs : List (Option Counter × String)) (st : GenState) :
    (bcs.foldl (processCounter ctx) st).synth = st.synth + (bcs.map bcLen).sum ∧
    ∃ tail ns,
      (bcs.foldl (processCounter ctx) st).recs = st.recs ++ tail ∧
      tail.map Rec.id = ns.map (fun n => some (toString n)) ∧
      List.Pairwise (· < ·) ns ∧
      (∀ n ∈ ns, st.synth < n ∧ n ≤ st.synth + (bcs.map bcLen).sum) ∧
      (ctx.uigf_dict = [] → ∀ r ∈ tail, r.item_id = some "0") := by
  induction bcs generalizing st with
  | nil => exact ⟨rfl, [], [], by simp, by simp, by simp, by simp, by simp⟩
  | cons bc bcs ih =>
    obtain ⟨hs1, tail1, ns1, hr1, hm1, hp1, hb1, hi1⟩ := processCounter_spec ctx bc st
    obtain ⟨hs2, tail2, ns2, hr2, hm2, hp2, hb2, hi2⟩ := ih (processCounter ctx st bc)
    constructor
    · rw [List.foldl_cons, hs2, hs1, List.map_cons, List.sum_cons]
      omega
    refine ⟨tail1 ++ tail2, ns1 ++ ns2, ?_, ?_, ?_, ?_, ?_⟩
    · rw [List.foldl_cons, hr2, hr1, List.append_assoc]
    · rw [List.map_append, List.map_append, hm1, hm2]
    · rw [List.pairwise_append]
      refine ⟨hp1, hp2, fun a ha b hb => ?_⟩
      have h1 := (hb1 a ha).2
      have h2 := (hb2 b hb).1
      rw [hs1] at h2
      omega
    · intro n hn
      rw [List.map_cons, List.sum_cons]
      rcases List.mem_append.mp hn with h | h
      · have hb3 := hb1 n h
        omega
      · have hb3 := hb2 n h
        rw [hs1] at hb3
        omega
    · intro hd r hr
      rcases List.mem_append.mp hr with h | h
      · exact hi1 hd r h
      · exact hi2 hd r h

/-- Total number of pulls of an export, in processing order. -/
def totalPulls (d : PaimonData) : Nat := ((bannerCounters d).map bcLen).sum

/-- Every record's id is the decimal string of `seed + n` for some pull
position `n` (1-based, bounded by the total pull count). -/
def idsAreSeeded (seed total : Nat) (l : List Rec) : Prop :=
  ∀ r ∈ l, ∃ n, 1 ≤ n ∧ n ≤ total ∧ r.id = some (toString (seed + n))

/-- The record ids, in list order, are stringified values of a strictly
increasing sequence of counter values above `seed`. -/
def idsStrictlyIncreasing (seed : Nat) (l : List Rec) : Prop :=
  ∃ ns : List Nat, l.map Rec.id = ns.map (fun n => some (toString n)) ∧
    List.Pairwise (· < ·) ns ∧ ∀ n ∈ ns, seed < n

/-- Amended claim C9: for an export whose effective account identifier is
`"700000001"`, every emitted record id is the decimal string of
`700000001000000 + n` (`n` the 1-based position of the pull in processing
order) — e.g. the 15-digit string `"700000001000001"` for the first pull,
not a 16-digit string — and in generation order (before the final sort) the
synthesized ids are strictly increasing. -/
theorem C9_amended_synth_ids (paimon : PaimonData) (ea eav : String)
    (ov : List (String × OvItem)) (api : ApiResults) (nowTs : Nat) (nowStr : String)
    (h : effUid paimon = "700000001") :
    idsAreSeeded 700000001000000 (totalPulls paimon)
      (paimon_to_uigf_v3 paimon ea eav ov api nowTs nowStr).1.list ∧
    idsStrictlyIncreasing 700000001000000 (genRecs paimon ov api nowTs) := by
  have hseed : seedOf (effUid paimon) nowTs = 700000001000000 := by
    rw [h]
    show (if isDigits "700000001" then
        natOfDigits ("700000001".data ++ ['0', '0', '0', '0', '0', '0']) else nowTs) = _
    rw [if_pos (by decide)]
    decide
  obtain ⟨_, tail, ns, hrecs, hmap, hpw, hbd, _⟩ :=
    foldBanners_spec (pipelineCtx paimon ov api) (bannerCounters paimon)
      ⟨seedOf (effUid paimon) nowTs, [], []⟩
  have hG : (genState paimon (pipelineCtx paimon ov api) (seedOf (effUid paimon) nowTs)).recs
      = tail := by
    unfold genState
    rw [hrecs]
    simp
  have htot : totalPulls paimon = ((bannerCounters paimon).map bcLen).sum := rfl
  constructor
  · intro r hr
    have hmem : r ∈ (genState paimon (pipelineCtx paimon ov api)
        (seedOf (effUid paimon) nowTs)).recs :=
      ((List.perm_insertionSort sortLe _).mem_iff).mp hr
    rw [hG] at hmem
    have hidmem : r.id ∈ tail.map Rec.id := List.mem_map_of_mem _ hmem
    rw [hmap] at hidmem
    obtain ⟨n, hn, hfn⟩ := List.mem_map.mp hidmem
    have hbds : seedOf (effUid paimon) nowTs < n ∧
        n ≤ seedOf (effUid paimon) nowTs + ((bannerCounters paimon).map bcLen).sum :=
      hbd n hn
    rw [hseed] at hbds
    refine ⟨n - 700000001000000, by omega, by rw [htot]; omega, ?_⟩
    · rw [← hfn]
      have heq : 700000001000000 + (n - 700000001000000) = n := by omega
      rw [heq]
  · refine ⟨ns, ?_, hpw, fun n hn => ?_⟩
    · rw [show genRecs paimon ov api nowTs =
          (genState paimon (pipelineCtx paimon ov api) (seedOf (effUid paimon) nowTs)).recs
        from rfl, hG, hmap]
    · have hbds : seedOf (effUid paimon) nowTs < n ∧
          n ≤ seedOf (effUid paimon) nowTs + ((bannerCounters paimon).map bcLen).sum :=
        hbd n hn
      rw [hseed] at hbds
      exact hbds.1

/-- One-pull export with account identifier `"700000001"`. -/
def pullC9 : Pull := ⟨some "mika", some "Mika", some "character", some "2024-01-01 00:00:00"⟩

def paimonC9 : PaimonData :=
  ⟨some "700000001", none, some "ja", none, none, none, some ⟨some [pullC9]⟩, none⟩

/-- An empty fetch-result set (every source download failed). -/
def emptyApi : ApiResults := ⟨[]⟩

/-- Counterexample to claim C9 as stated: the first synthesized id for
account `"700000001"` is `"700000001000001"`, a 15-digit string — not a
16-digit string starting `"700000001000000"`. -/
theorem C9_counterexample :
    (paimon_to_uigf_v3 paimonC9 "app" "1.0" [] emptyApi 0 "t").1.list.map Rec.id =
      [some "700000001000001"] ∧
    "700000001000001".length = 15 ∧ (15 : Nat) ≠ 16 := by
  refine ⟨by decide, by decide, by decide⟩

/-- Witness for the amended claim C9 at a concrete input. -/
theorem C9_witness :
    idsAreSeeded 700000001000000 (totalPulls paimonC9)
      (paimon_to_uigf_v3 paimonC9 "app" "1.0" [] emptyApi 0 "t").1.list ∧
    idsStrictlyIncreasing 700000001000000 (genRecs paimonC9 [] emptyApi 0) :=
  C9_amended_synth_ids paimonC9 "app" "1.0" [] emptyApi 0 "t" (by decide)

/-- The keys `fetch_apis_parallel` can produce: exactly those of `API_URLS`. -/
def keysSubset (api : ApiResults) : Prop :=
  ∀ kv ∈ api.entries, kv.1 ∈ API_URLS.map Prod.fst

/-- Every record of the list carries catalog id `"0"`. -/
def allItemIdZero (l : List Rec) : Prop := ∀ r ∈ l, r.item_id = some "0"

/-- Claim C10: `paimon_to_uigf_v3` reads the name-to-id dictionary from the
fetch-result key `"uigf_dict"`, which no fetch populates (the fetched keys
are `uigf_dict_en` and `uigf_dict_ja`), so for every pull and every state of
the reference data the emitted record's `item_id` equals `"0"`. -/
theorem C10_item_id_always_zero (paimon : PaimonData) (ea eav : String)
    (ov : List (String × OvItem)) (api : ApiResults) (nowTs : Nat) (nowStr : String)
    (h : keysSubset api) :
    allItemIdZero (paimon_to_uigf_v3 paimon ea eav ov api nowTs nowStr).1.list := by
  have hud : apiIdTable api "uigf_dict" = [] := by
    cases hl : alookup api.entries "uigf_dict" with
    | none => simp [apiIdTable, hl]
    | some v =>
      have h2 : "uigf_dict" ∈ API_URLS.map Prod.fst := h _ (alookup_some_mem hl)
      exact absurd h2 (by decide)
  have hctx : (pipelineCtx paimon ov api).uigf_dict = [] := hud
  obtain ⟨_, tail, ns, hrecs, _, _, _, hiid⟩ :=
    foldBanners_spec (pipelineCtx paimon ov api) (bannerCounters paimon)
      ⟨seedOf (effUid paimon) nowTs, [], []⟩
  have hG : (genState paimon (pipelineCtx paimon ov api) (seedOf (effUid paimon) nowTs)).recs
      = tail := by
    unfold genState
    rw [hrecs]
    simp
  intro r hr
  have hmem : r ∈ (genState paimon (pipelineCtx paimon ov api)
      (seedOf (effUid paimon) nowTs)).recs :=
    ((List.perm_insertionSort sortLe _).mem_iff).mp hr
  rw [hG] at hmem
  exact hiid hctx r hmem

/-- Witness for claim C10 at a concrete input (all fetches failed, one pull). -/
theorem C10_witness :
    keysSubset emptyApi ∧
    allItemIdZero (paimon_to_uigf_v3 paimonC9 "app" "1.0" [] emptyApi 0 "t").1.list :=
  ⟨fun kv h => absurd h (List.not_mem_nil kv),
   C10_item_id_always_zero paimonC9 "app" "1.0" [] emptyApi 0 "t"
     (fun kv h => absurd h (List.not_mem_nil kv))⟩

/-! ## Claim C7 -/

/-- A batch entry whose rank survives `merge_override_entry`'s emptiness test
(non-empty after stripping). -/
def activeRank (t : OvItem) : Prop := pyStrip (t.rank_type.getD "") ≠ ""

/-- All entries of a batch have a usable rank (the claim's hypothesis "all
entries have non-empty rank values"). -/
def allActive (ts : List OvItem) : Prop := ∀ t ∈ ts, activeRank t

/-- A batch entry with a truthy identifier (counted by `cmd_merge`). -/
def hasGoodId (t : OvItem) : Bool :=
  match t.pmoe_id with
  | some k => if k = "" then false else true
  | none => false

theorem activeRank_some {t : OvItem} (h : activeRank t) :
    ∃ r, t.rank_type = some r ∧ pyStrip r ≠ "" ∧ r ≠ "" := by
  unfold activeRank at h
  cases ht : t.rank_type with
  | none =>
    rw [ht] at h
    exact absurd rfl h
  | some r =>
    rw [ht] at h
    refine ⟨r, rfl, h, fun hr => ?_⟩
    rw [hr] at h
    exact h rfl

theorem merge_override_entry_active {t : OvItem} (e : OvItem) (h : activeRank t) :
    merge_override_entry t e =
      ⟨t.pmoe_id, oor t.name_en e.name_en, oor t.name_jp e.name_jp,
       oor t.gacha_type e.gacha_type, t.rank_type⟩ := by
  obtain ⟨r, hr, hps, _⟩ := activeRank_some h
  simp [merge_override_entry, hr, hps]

theorem ovItemExt {a b : OvItem} (h1 : a.pmoe_id = b.pmoe_id) (h2 : a.name_en = b.name_en)
    (h3 : a.name_jp = b.name_jp) (h4 : a.gacha_type = b.gacha_type)
    (h5 : a.rank_type = b.rank_type) : a = b := by
  cases a
  cases b
  simp_all

/-- The merge chain of a sequence of batch entries into one map slot. -/
def mergeChain (E : OvItem) (ts : List OvItem) : OvItem :=
  ts.foldl (fun e t => merge_override_entry t e) E

theorem mergeChain_name_en : ∀ (ts : List OvItem) (E : OvItem), allActive ts →
    (mergeChain E ts).name_en = ts.foldl (fun acc t => oor (OvItem.name_en t) acc) E.name_en := by
  intro ts
  induction ts with
  | nil => intro E _; rfl
  | cons t ts ih =>
    intro E h
    have ht : activeRank t := h t (List.mem_cons_self _ _)
    have hts : allActive ts := fun x hx => h x (List.mem_cons_of_mem _ hx)
    show (mergeChain (merge_override_entry t E) ts).name_en = _
    rw [ih _ hts, merge_override_entry_active E ht]
    rfl

theorem mergeChain_name_jp : ∀ (ts : List OvItem) (E : OvItem), allActive ts →
    (mergeChain E ts).name_jp = ts.foldl (fun acc t => oor (OvItem.name_jp t) acc) E.name_jp := by
  intro ts
  induction ts with
  | nil => intro E _; rfl
  | cons t ts ih =>
    intro E h
    have ht : activeRank t := h t (List.mem_cons_self _ _)
    have hts : allActive ts := fun x hx => h x (List.mem_cons_of_mem _ hx)
    show (mergeChain (merge_override_entry t E) ts).name_jp = _
    rw [ih _ hts, merge_override_entry_active E ht]
    rfl

theorem mergeChain_gacha : ∀ (ts : List OvItem) (E : OvItem), allActive ts →
    (mergeChain E ts).gacha_type =
      ts.foldl (fun acc t => oor (OvItem.gacha_type t) acc) E.gacha_type := by
  intro ts
  induction ts with
  | nil => intro E _; rfl
  | cons t ts ih =>
    intro E h
    have ht : activeRank t := h t (List.mem_cons_self _ _)
    have hts : allActive ts := fun x hx => h x (List.mem_cons_of_mem _ hx)
    show (mergeChain (merge_override_entry t E) ts).gacha_type = _
    rw [ih _ hts, merge_override_entry_active E ht]
    rfl

theorem mergeChain_pmoe_id : ∀ (ts : List OvItem) (E : OvItem), allActive ts →
    (mergeChain E ts).pmoe_id =
      ts.foldl (fun acc t => OvItem.pmoe_id t) E.pmoe_id := by
  intro ts
  induction ts with
  | nil => intro E _; rfl
  | cons t ts ih =>
    intro E h
    have ht : activeRank t := h t (List.mem_cons_self _ _)
    have hts : allActive ts := fun x hx => h x (List.mem_cons_of_mem _ hx)
    show (mergeChain (merge_override_entry t E) ts).pmoe_id = _
    rw [ih _ hts, merge_override_entry_active E ht]
    rfl

theorem mergeChain_rank : ∀ (ts : List OvItem) (E : OvItem), allActive ts →
    (mergeChain E ts).rank_type =
      ts.foldl (fun acc t => OvItem.rank_type t) E.rank_type := by
  intro ts
  induction ts with
  | nil => intro E _; rfl
  | cons t ts ih =>
    intro E h
    have ht : activeRank t := h t (List.mem_cons_self _ _)
    have hts : allActive ts := fun x hx => h x (List.mem_cons_of_mem _ hx)
    show (mergeChain (merge_override_entry t E) ts).rank_type = _
    rw [ih _ hts, merge_override_entry_active E ht]
    rfl

theorem oor_idem {α : Type} (a : Option α) : oor a a = a := by
  cases a <;> rfl

theorem foldl_oor_eq (f : OvItem → Option String) (ts : List OvItem) (a : Option String) :
    ts.foldl (fun acc t => oor (f t) acc) a =
      oor (ts.foldl (fun acc t => oor (f t) acc) none) a := by
  induction ts generalizing a with
  | nil => simp [oor]
  | cons t ts ih =>
    show ts.foldl _ (oor (f t) a) = oor (ts.foldl _ (oor (f t) none)) a
    rw [ih (oor (f t) a), ih (oor (f t) none), oor_none_right, ← oor_assoc]

theorem foldl_oor_idem (f : OvItem → Option String) (ts : List OvItem) (a : Option String) :
    ts.foldl (fun acc t => oor (f t) acc) (ts.foldl (fun acc t => oor (f t) acc) a) =
      ts.foldl (fun acc t => oor (f t) acc) a := by
  rw [foldl_oor_eq f ts a]
  rw [foldl_oor_eq f ts (oor (ts.foldl (fun acc t => oor (f t) acc) none) a)]
  rw [← oor_assoc, oor_idem]

/-- Re-merging the same all-active batch segment into a slot it already
produced changes nothing. -/
theorem mergeChain_idem (ts : List OvItem) (E : OvItem) (h : allActive ts) :
    mergeChain (mergeChain E ts) ts = mergeChain E ts := by
  apply ovItemExt
  · rw [mergeChain_pmoe_id ts (mergeChain E ts) h, mergeChain_pmoe_id ts E h]
    cases ts with
    | nil => rfl
    | cons t rest => rfl
  · rw [mergeChain_name_en ts (mergeChain E ts) h, mergeChain_name_en ts E h,
      foldl_oor_idem OvItem.name_en ts E.name_en]
  · rw [mergeChain_name_jp ts (mergeChain E ts) h, mergeChain_name_jp ts E h,
      foldl_oor_idem OvItem.name_jp ts E.name_jp]
  · rw [mergeChain_gacha ts (mergeChain E ts) h, mergeChain_gacha ts E h,
      foldl_oor_idem OvItem.gacha_type ts E.gacha_type]
  · rw [mergeChain_rank ts (mergeChain E ts) h, mergeChain_rank ts E h]
    cases ts with
    | nil => rfl
    | cons t rest => rfl

/-- The batch entries that target a given map key. -/
def relTodo (k : String) (ts : List OvItem) : List OvItem :=
  ts.filter fun t => decide (t.pmoe_id = some k)

/-- The override map slot for a key (`override_map.get(k, {})`). -/
def vlookupOv (m : List (String × OvItem)) (k : String) : OvItem :=
  (alookup m k).getD emptyOvItem

theorem relTodo_cons_eq {t : OvItem} {k : String} (h : t.pmoe_id = some k)
    (ts : List OvItem) : relTodo k (t :: ts) = t :: relTodo k ts := by
  simp [relTodo, List.filter_cons, h]

theorem relTodo_cons_ne {t : OvItem} {k : String} (h : ¬t.pmoe_id = some k)
    (ts : List OvItem) : relTodo k (t :: ts) = relTodo k ts := by
  simp [relTodo, List.filter_cons, h]

theorem mergeStep_skip {acc : List (String × OvItem) × Nat × Nat} {t : OvItem}
    (h : t.pmoe_id = none ∨ t.pmoe_id = some "") : mergeStep acc t = acc := by
  rcases h with h | h <;> simp [mergeStep, h]

theorem mergeStep_present {acc : List (String × OvItem) × Nat × Nat} {t : OvItem} {k : String}
    (hk : t.pmoe_id = some k) (hke : k ≠ "") (ha : activeRank t)
    (hp : (alookup acc.1 k).isSome) :
    mergeStep acc t = (dinsert acc.1 k (merge_override_entry t (vlookupOv acc.1 k)),
      acc.2.1, acc.2.2 + 1) := by
  obtain ⟨v, hv⟩ := Option.isSome_iff_exists.mp hp
  obtain ⟨r, hr, hrs, hrne⟩ := activeRank_some ha
  have hmr : (merge_override_entry t ((alookup acc.1 k).getD emptyOvItem)).rank_type.getD ""
      = r := by
    rw [merge_override_entry_active _ ha, hr]
    rfl
  simp only [mergeStep, hk]
  rw [if_neg hke, hmr, if_neg hrne, hv]
  simp [vlookupOv, hv]

theorem mergeStep_absent {acc : List (String × OvItem) × Nat × Nat} {t : OvItem} {k : String}
    (hk : t.pmoe_id = some k) (hke : k ≠ "") (ha : activeRank t)
    (hp : alookup acc.1 k = none) :
    mergeStep acc t = (dinsert acc.1 k (merge_override_entry t (vlookupOv acc.1 k)),
      acc.2.1 + 1, acc.2.2) := by
  obtain ⟨r, hr, hrs, hrne⟩ := activeRank_some ha
  have hmr : (merge_override_entry t ((alookup acc.1 k).getD emptyOvItem)).rank_type.getD ""
      = r := by
    rw [merge_override_entry_active _ ha, hr]
    rfl
  simp only [mergeStep, hk]
  rw [if_neg hke, hmr, if_neg hrne, hp]
  simp [vlookupOv, hp]

theorem mergeStep_fst {acc : List (String × OvItem) × Nat × Nat} {t : OvItem} {k : String}
    (hk : t.pmoe_id = some k) (hke : k ≠ "") (ha : activeRank t) :
    (mergeStep acc t).1 = dinsert acc.1 k (merge_override_entry t (vlookupOv acc.1 k)) := by
  cases hp : alookup acc.1 k with
  | some v =>
    rw [mergeStep_present hk hke ha (by rw [hp]; rfl)]
  | none =>
    rw [mergeStep_absent hk hke ha hp]

/-- The per-key value of the override map after one merge fold: the merge
chain of the batch entries that target the key, starting from the previous
slot value. -/
theorem foldMerge_map : ∀ (ts : List OvItem), allActive ts → ∀ (k : String), k ≠ "" →
    ∀ (acc : List (String × OvItem) × Nat × Nat),
      vlookupOv (ts.foldl mergeStep acc).1 k =
        mergeChain (vlookupOv acc.1 k) (relTodo k ts) := by
  intro ts
  induction ts with
  | nil => intro _ k _ acc; rfl
  | cons t ts ih =>
    intro h k hke acc
    have ht : activeRank t := h t (List.mem_cons_self _ _)
    have hts : allActive ts := fun x hx => h x (List.mem_cons_of_mem _ hx)
    show vlookupOv (ts.foldl mergeStep (mergeStep acc t)).1 k = _
    rw [ih hts k hke (mergeStep acc t)]
    cases hid : t.pmoe_id with
    | none =>
      rw [mergeStep_skip (Or.inl hid), relTodo_cons_ne (by simp [hid])]
    | some k0 =>
      by_cases hk0 : k0 = ""
      · rw [mergeStep_skip (Or.inr (by rw [hid, hk0]))]
        rw [relTodo_cons_ne (by rw [hid]; intro hc; exact hke ((Option.some_inj.mp hc).symm ▸ hk0))]
      · by_cases hkk : k0 = k
        · subst hkk
          rw [mergeStep_fst hid hk0 ht]
          rw [show vlookupOv (dinsert acc.1 k0 (merge_override_entry t (vlookupOv acc.1 k0))) k0
              = merge_override_entry t (vlookupOv acc.1 k0) from by
            unfold vlookupOv
            rw [alookup_dinsert_same]
            rfl]
          rw [relTodo_cons_eq hid]
          rfl
        · rw [mergeStep_fst hid hk0 ht]
          rw [show vlookupOv (dinsert acc.1 k0 (merge_override_entry t (vlookupOv acc.1 k0))) k
              = vlookupOv acc.1 k from by
            unfold vlookupOv
            rw [alookup_dinsert_other _ _ _ _ (Ne.symm hkk)]]
          rw [relTodo_cons_ne (by rw [hid]; intro hc; exact hkk (Option.some_inj.mp hc))]

theorem mergeStep_fst_cases (acc : List (String × OvItem) × Nat × Nat) (t : OvItem) :
    (mergeStep acc t).1 = acc.1 ∨ ∃ k v, (mergeStep acc t).1 = dinsert acc.1 k v := by
  cases hid : t.pmoe_id with
  | none => exact Or.inl (by rw [mergeStep_skip (Or.inl hid)])
  | some k0 =>
    by_cases hk0 : k0 = ""
    · exact Or.inl (by rw [mergeStep_skip (Or.inr (by rw [hid, hk0]))])
    · by_cases hr : (merge_override_entry t ((alookup acc.1 k0).getD emptyOvItem)).rank_type.getD "" = ""
      · left
        simp only [mergeStep, hid]
        rw [if_neg hk0, if_pos hr]
      · simp only [mergeStep, hid]
        rw [if_neg hk0, if_neg hr]
        cases halk : alookup acc.1 k0 with
        | some v => exact Or.inr ⟨k0, _, rfl⟩
        | none => exact Or.inr ⟨k0, _, rfl⟩

theorem foldMerge_presence_mono : ∀ (ts : List OvItem)
    (acc : List (String × OvItem) × Nat × Nat) (k : String),
    (alookup acc.1 k).isSome → (alookup (ts.foldl mergeStep acc).1 k).isSome := by
  intro ts
  induction ts with
  | nil => intro acc k h; exact h
  | cons t ts ih =>
    intro acc k h
    show (alookup (ts.foldl mergeStep (mergeStep acc t)).1 k).isSome
    apply ih
    rcases mergeStep_fst_cases acc t with hc | ⟨k2, v2, hc⟩
    · rw [hc]; exact h
    · rw [hc]; exact alookup_isSome_dinsert _ _ _ _ h

/-- After one merge fold over an all-active batch, every key targeted by a
batch entry is present in the map. -/
theorem foldMerge_presence : ∀ (ts : List OvItem), allActive ts →
    ∀ (acc : List (String × OvItem) × Nat × Nat) (t : OvItem), t ∈ ts →
      ∀ (k : String), t.pmoe_id = some k → k ≠ "" →
      (alookup (ts.foldl mergeStep acc).1 k).isSome := by
  intro ts
  induction ts with
  | nil => intro _ acc t hmem; cases hmem
  | cons t0 ts ih =>
    intro h acc t hmem k hk hke
    have hts : allActive ts := fun x hx => h x (List.mem_cons_of_mem _ hx)
    rcases List.mem_cons.mp hmem with he | hm
    · subst he
      show (alookup (ts.foldl mergeStep (mergeStep acc t)).1 k).isSome
      apply foldMerge_presence_mono
      rw [mergeStep_fst hk hke (h t (List.mem_cons_self _ _)), alookup_dinsert_same]
      rfl
    · exact ih hts (mergeStep acc t0) t hm k hk hke

theorem dinsert_mem {β : Type} {m : List (String × β)} {k : String} {v : β} {kv : String × β}
    (h : kv ∈ dinsert m k v) : kv = (k, v) ∨ kv ∈ m := by
  induction m with
  | nil => simpa [dinsert] using h
  | cons kv1 rest ih =>
    obtain ⟨k1, v1⟩ := kv1
    by_cases h1 : k1 = k
    · subst h1
      simp only [dinsert, if_pos rfl] at h
      rcases List.mem_cons.mp h with h2 | h2
      · exact Or.inl h2
      · exact Or.inr (List.mem_cons_of_mem _ h2)
    · simp only [dinsert, if_neg h1] at h
      rcases List.mem_cons.mp h with h2 | h2
      · exact Or.inr (h2 ▸ List.mem_cons_self _ _)
      · rcases ih h2 with h3 | h3
        · exact Or.inl h3
        · exact Or.inr (List.mem_cons_of_mem _ h3)

/-- Every binding of the override map carries its own key as `pmoe_id`, and
keys are truthy. -/
def mapWf (m : List (String × OvItem)) : Prop :=
  ∀ kv ∈ m, kv.2.pmoe_id = some kv.1 ∧ kv.1 ≠ ""

theorem buildStep_wf {m : List (String × OvItem)} {it : OvItem} (h : mapWf m) :
    mapWf (buildStep m it) := by
  cases hid : it.pmoe_id with
  | none => simpa [buildStep, hid] using h
  | some k =>
    by_cases hk : k = ""
    · simpa [buildStep, hid, hk] using h
    · intro kv hmem
      simp only [buildStep, hid, if_neg hk] at hmem
      rcases dinsert_mem hmem with he | hm
      · rw [he]
        exact ⟨hid, hk⟩
      · exact h kv hm

theorem buildOverrideMap_wf (items : List OvItem) : mapWf (buildOverrideMap items) := by
  have hgen : ∀ (its : List OvItem) (m : List (String × OvItem)),
      mapWf m → mapWf (its.foldl buildStep m) := by
    intro its
    induction its with
    | nil => intro m hm; exact hm
    | cons it its ih => intro m hm; exact ih _ (buildStep_wf hm)
  exact hgen items [] (fun kv hkv => absurd hkv (List.not_mem_nil kv))

theorem mergeStep_wf {acc : List (String × OvItem) × Nat × Nat} {t : OvItem}
    (ha : activeRank t) (h : mapWf acc.1) : mapWf (mergeStep acc t).1 := by
  cases hid : t.pmoe_id with
  | none => rw [mergeStep_skip (Or.inl hid)]; exact h
  | some k =>
    by_cases hk : k = ""
    · rw [mergeStep_skip (Or.inr (by rw [hid, hk]))]; exact h
    · rw [mergeStep_fst hid hk ha]
      intro kv hmem
      rcases dinsert_mem hmem with he | hm
      · rw [he]
        refine ⟨?_, hk⟩
        show (merge_override_entry t (vlookupOv acc.1 k)).pmoe_id = some k
        rw [merge_override_entry_active _ ha]
        exact hid
      · exact h kv hm

theorem foldMerge_wf : ∀ (ts : List OvItem), allActive ts →
    ∀ (acc : List (String × OvItem) × Nat × Nat), mapWf acc.1 →
      mapWf (ts.foldl mergeStep acc).1 := by
  intro ts
  induction ts with
  | nil => intro _ acc h; exact h
  | cons t ts ih =>
    intro h acc hm
    have ht : activeRank t := h t (List.mem_cons_self _ _)
    have hts : allActive ts := fun x hx => h x (List.mem_cons_of_mem _ hx)
    exact ih hts (mergeStep acc t) (mergeStep_wf ht hm)

theorem alookup_isSome_iff_mem {β : Type} (m : List (String × β)) (k : String) :
    (alookup m k).isSome ↔ k ∈ m.map Prod.fst := by
  constructor
  · intro h2
    by_contra hn
    rw [(alookup_eq_none m k).mpr hn] at h2
    simp at h2
  · intro h2
    cases hp : alookup m k with
    | some v => rfl
    | none => exact absurd h2 ((alookup_eq_none m k).mp hp)

theorem dinsert_keys_nodup {β : Type} (m : List (String × β)) (k : String) (v : β)
    (h : (m.map Prod.fst).Nodup) : ((dinsert m k v).map Prod.fst).Nodup := by
  cases hp : alookup m k with
  | some v2 =>
    rw [dinsert_keys_of_mem _ _ _ ((alookup_isSome_iff_mem m k).mp (by rw [hp]; rfl))]
    exact h
  | none =>
    rw [dinsert_absent m k v hp, List.map_append]
    have hnm : k ∉ m.map Prod.fst := (alookup_eq_none m k).mp hp
    simp [List.nodup_append, h]
    intro a ha
    exact hnm (List.mem_map.mpr ⟨(k, a), ha, rfl⟩)

theorem buildOverrideMap_keys_nodup (items : List OvItem) :
    ((buildOverrideMap items).map Prod.fst).Nodup := by
  have hgen : ∀ (its : List OvItem) (m : List (String × OvItem)),
      (m.map Prod.fst).Nodup → ((its.foldl buildStep m).map Prod.fst).Nodup := by
    intro its
    induction its with
    | nil => intro m hm; exact hm
    | cons it its ih =>
      intro m hm
      apply ih
      cases hid : it.pmoe_id with
      | none => simpa [buildStep, hid] using hm
      | some k =>
        by_cases hk : k = ""
        · simpa [buildStep, hid, hk] using hm
        · simp only [buildStep, hid, if_neg hk]
          exact dinsert_keys_nodup m k it hm
  exact hgen items [] (by simp)

theorem foldMerge_keys_nodup : ∀ (ts : List OvItem)
    (acc : List (String × OvItem) × Nat × Nat),
    (acc.1.map Prod.fst).Nodup → (((ts.foldl mergeStep acc).1).map Prod.fst).Nodup := by
  intro ts
  induction ts with
  | nil => intro acc h; exact h
  | cons t ts ih =>
    intro acc h
    apply ih
    rcases mergeStep_fst_cases acc t with hc | ⟨k2, v2, hc⟩
    · rw [hc]; exact h
    · rw [hc]; exact dinsert_keys_nodup _ _ _ h

/-- Second-run bookkeeping: when every batch key is already present, the key
list is unchanged, nothing is added, and every entry with a truthy id counts
as updated. -/
theorem foldMerge_run2 : ∀ (ts : List OvItem), allActive ts →
    ∀ (acc : List (String × OvItem) × Nat × Nat),
      (∀ t ∈ ts, ∀ k, t.pmoe_id = some k → k ≠ "" → (alookup acc.1 k).isSome) →
      (ts.foldl mergeStep acc).1.map Prod.fst = acc.1.map Prod.fst ∧
      (ts.foldl mergeStep acc).2.1 = acc.2.1 ∧
      (ts.foldl mergeStep acc).2.2 = acc.2.2 + (ts.filter hasGoodId).length := by
  intro ts
  induction ts with
  | nil => intro _ acc _; exact ⟨rfl, rfl, by simp⟩
  | cons t ts ih =>
    intro h acc hpre
    have ht : activeRank t := h t (List.mem_cons_self _ _)
    have hts : allActive ts := fun x hx => h x (List.mem_cons_of_mem _ hx)
    have hskip : ∀ (hstep : mergeStep acc t = acc), hasGoodId t = false →
        ((t :: ts).foldl mergeStep acc).1.map Prod.fst = acc.1.map Prod.fst ∧
        ((t :: ts).foldl mergeStep acc).2.1 = acc.2.1 ∧
        ((t :: ts).foldl mergeStep acc).2.2 = acc.2.2 + ((t :: ts).filter hasGoodId).length := by
      intro hstep hgf
      have hpre2 : ∀ t2 ∈ ts, ∀ k, t2.pmoe_id = some k → k ≠ "" →
          (alookup (mergeStep acc t).1 k).isSome := by
        intro t2 h2 k hk hke
        rw [hstep]
        exact hpre t2 (List.mem_cons_of_mem _ h2) k hk hke
      obtain ⟨h1, h2, h3⟩ := ih hts (mergeStep acc t) hpre2
      rw [List.foldl_cons, List.filter_cons, hgf]
      rw [h1, h2, h3, hstep]
      exact ⟨rfl, rfl, rfl⟩
    cases hid : t.pmoe_id with
    | none =>
      exact hskip (mergeStep_skip (Or.inl hid)) (by simp [hasGoodId, hid])
    | some k0 =>
      by_cases hk0 : k0 = ""
      · exact hskip (mergeStep_skip (Or.inr (by rw [hid, hk0]))) (by simp [hasGoodId, hid, hk0])
      · have hp : (alookup acc.1 k0).isSome := hpre t (List.mem_cons_self _ _) k0 hid hk0
        have hstep := mergeStep_present hid hk0 ht hp
        have hkeys : (mergeStep acc t).1.map Prod.fst = acc.1.map Prod.fst := by
          rw [hstep]
          exact dinsert_keys_of_mem _ _ _ ((alookup_isSome_iff_mem _ _).mp hp)
        have hpre2 : ∀ t2 ∈ ts, ∀ k, t2.pmoe_id = some k → k ≠ "" →
            (alookup (mergeStep acc t).1 k).isSome := by
          intro t2 h2 k hk hke
          rw [hstep]
          exact alookup_isSome_dinsert _ _ _ _ (hpre t2 (List.mem_cons_of_mem _ h2) k hk hke)
        obtain ⟨h1, h2, h3⟩ := ih hts (mergeStep acc t) hpre2
        have hgf : hasGoodId t = true := by simp [hasGoodId, hid, hk0]
        rw [List.foldl_cons, List.filter_cons, hgf]
        refine ⟨by rw [h1, hkeys], by rw [h2, hstep], ?_⟩
        rw [h3, hstep]
        show acc.2.2 + 1 + (ts.filter hasGoodId).length = acc.2.2 + (t :: ts.filter hasGoodId).length
        rw [List.length_cons]
        omega

theorem buildFold_fresh : ∀ (K : List String) (f : String → OvItem)
    (m : List (String × OvItem)), K.Nodup →
    (∀ k ∈ K, (f k).pmoe_id = some k ∧ k ≠ "" ∧ k ∉ m.map Prod.fst) →
    (K.map f).foldl buildStep m = m ++ K.map (fun k => (k, f k)) := by
  intro K
  induction K with
  | nil => intro f m _ _; simp
  | cons k K ih =>
    intro f m hnd hf
    obtain ⟨hfk, hke, hfresh⟩ := hf k (List.mem_cons_self _ _)
    rw [List.map_cons, List.foldl_cons]
    have hstep : buildStep m (f k) = m ++ [(k, f k)] := by
      simp only [buildStep, hfk]
      rw [if_neg hke, dinsert_absent m k (f k) ((alookup_eq_none m k).mpr hfresh)]
    rw [hstep]
    rw [List.nodup_cons] at hnd
    rw [ih f (m ++ [(k, f k)]) hnd.2 ?_]
    · rw [List.append_assoc]
      rfl
    · intro k2 hk2
      obtain ⟨h1, h2, h3⟩ := hf k2 (List.mem_cons_of_mem _ hk2)
      refine ⟨h1, h2, ?_⟩
      rw [List.map_append]
      intro hc
      rcases List.mem_append.mp hc with hc | hc
      · exact h3 hc
      · simp at hc
        exact hnd.1 (hc ▸ hk2)

theorem buildOverrideMap_keyed (K : List String) (f : String → OvItem)
    (hnd : K.Nodup) (hf : ∀ k ∈ K, (f k).pmoe_id = some k ∧ k ≠ "") :
    buildOverrideMap (K.map f) = K.map (fun k => (k, f k)) := by
  have hg := buildFold_fresh K f [] hnd (fun k hk => ⟨(hf k hk).1, (hf k hk).2, by simp⟩)
  simpa [buildOverrideMap] using hg

theorem alookup_keyed (K : List String) (f : String → OvItem) (k : String) :
    alookup (K.map fun k2 => (k2, f k2)) k = if k ∈ K then some (f k) else none := by
  induction K with
  | nil => simp [alookup]
  | cons a K ih =>
    rw [List.map_cons]
    by_cases h : a = k
    · subst h
      simp [alookup]
    · rw [show alookup ((a, f a) :: K.map fun k2 => (k2, f k2)) k
          = alookup (K.map fun k2 => (k2, f k2)) k from by simp [alookup, h]]
      rw [ih]
      by_cases hm : k ∈ K <;> simp [hm, List.mem_cons, Ne.symm h]

/-- A batch refuting claim C7's count characterization: the same identifier
appears twice, both times with a non-empty rank. -/
def todoC7 : List OvItem :=
  [⟨some "a", none, none, none, some "5"⟩, ⟨some "a", none, none, none, some "5"⟩]

/-- Counterexample to claim C7 as stated: for a batch containing the same
identifier twice (all ranks non-empty), the second merge run reports 2
updated entries, while the batch has only 1 distinct identifier — the
count is per batch entry, not per distinct identifier.  (The table itself is
unchanged, and 0 entries are added, as the claim says.) -/
theorem C7_counterexample :
    todoC7.map OvItem.pmoe_id = [some "a", some "a"] ∧
    (cmd_merge (cmd_merge [] todoC7).1 todoC7).2.2 = 2 ∧
    (2 : Nat) ≠ 1 := by
  refine ⟨by decide, by decide, by decide⟩

/-- Amended claim C7: merging an all-non-empty-rank batch a second time into
the table produced by the first merge yields the same table, and the second
run reports 0 entries added and N entries updated, where N is the number of
batch entries carrying a truthy identifier (counting each occurrence, so for
a duplicate-free batch N is the number of distinct identifiers). -/
theorem C7_amended_merge_idem (override_items todo_items : List OvItem)
    (h : allActive todo_items) :
    (cmd_merge (cmd_merge override_items todo_items).1 todo_items).1 =
      (cmd_merge override_items todo_items).1 ∧
    (cmd_merge (cmd_merge override_items todo_items).1 todo_items).2.1 = 0 ∧
    (cmd_merge (cmd_merge override_items todo_items).1 todo_items).2.2 =
      (todo_items.filter hasGoodId).length := by
  set m1 : List (String × OvItem) :=
    (todo_items.foldl mergeStep (buildOverrideMap override_items, 0, 0)).1 with hm1def
  set A : List String := List.insertionSort keyLe (m1.map Prod.fst) with hAdef
  have hitems1 : (cmd_merge override_items todo_items).1 =
      A.map (fun k => vlookupOv m1 k) := rfl
  have hwfm1 : mapWf m1 :=
    foldMerge_wf todo_items h _ (buildOverrideMap_wf _)
  have hndm1 : (m1.map Prod.fst).Nodup :=
    foldMerge_keys_nodup todo_items _ (buildOverrideMap_keys_nodup _)
  have hsortedA : List.Sorted keyLe A := List.sorted_insertionSort keyLe _
  have hpermA : A.Perm (m1.map Prod.fst) := List.perm_insertionSort keyLe _
  have hndA : A.Nodup := hpermA.nodup_iff.mpr hndm1
  have hmemA : ∀ k : String, k ∈ A ↔ k ∈ m1.map Prod.fst := fun k => hpermA.mem_iff
  have hfA : ∀ k ∈ A, (vlookupOv m1 k).pmoe_id = some k ∧ k ≠ "" := by
    intro k hk
    have hks : (alookup m1 k).isSome := (alookup_isSome_iff_mem m1 k).mpr ((hmemA k).mp hk)
    obtain ⟨v, hv⟩ := Option.isSome_iff_exists.mp hks
    have hkv := hwfm1 (k, v) (alookup_some_mem hv)
    unfold vlookupOv
    rw [hv]
    exact ⟨hkv.1, hkv.2⟩
  have hm0' : buildOverrideMap (A.map (fun k => vlookupOv m1 k)) =
      A.map (fun k => (k, vlookupOv m1 k)) :=
    buildOverrideMap_keyed A _ hndA hfA
  have hlook0' : ∀ k : String, alookup (buildOverrideMap (A.map (fun k => vlookupOv m1 k))) k =
      if k ∈ A then some (vlookupOv m1 k) else none := by
    intro k
    rw [hm0']
    exact alookup_keyed A _ k
  have hkeys0' : (buildOverrideMap (A.map (fun k => vlookupOv m1 k))).map Prod.fst = A := by
    rw [hm0', List.map_map]
    show List.map (fun k => k) A = A
    simp
  have hpre : ∀ t ∈ todo_items, ∀ k, t.pmoe_id = some k → k ≠ "" →
      (alookup (buildOverrideMap (A.map (fun k => vlookupOv m1 k))) k).isSome := by
    intro t hmem k hk hke
    rw [hlook0']
    have hks : (alookup m1 k).isSome :=
      foldMerge_presence todo_items h (buildOverrideMap override_items, 0, 0) t hmem k hk hke
    rw [if_pos ((hmemA k).mpr ((alookup_isSome_iff_mem m1 k).mp hks))]
    rfl
  obtain ⟨hk2, ha2, hu2⟩ := foldMerge_run2 todo_items h
    (buildOverrideMap (A.map (fun k => vlookupOv m1 k)), 0, 0) hpre
  have hvals : ∀ k ∈ A, vlookupOv ((todo_items.foldl mergeStep
      (buildOverrideMap (A.map (fun k => vlookupOv m1 k)), 0, 0)).1) k = vlookupOv m1 k := by
    intro k hk
    have hke : k ≠ "" := (hfA k hk).2
    rw [foldMerge_map todo_items h k hke]
    have hbase : vlookupOv ((buildOverrideMap (A.map (fun k => vlookupOv m1 k)), 0, 0) :
        List (String × OvItem) × Nat × Nat).1 k = vlookupOv m1 k := by
      unfold vlookupOv
      show (alookup (buildOverrideMap (A.map (fun k => vlookupOv m1 k))) k).getD emptyOvItem = _
      rw [hlook0', if_pos hk]
      rfl
    rw [hbase]
    have hrel : allActive (relTodo k todo_items) :=
      fun x hx => h x (List.mem_filter.mp hx).1
    have hm1k : vlookupOv m1 k =
        mergeChain (vlookupOv ((buildOverrideMap override_items, 0, 0) :
          List (String × OvItem) × Nat × Nat).1 k) (relTodo k todo_items) :=
      foldMerge_map todo_items h k hke (buildOverrideMap override_items, 0, 0)
    rw [hm1k, mergeChain_idem _ _ hrel]
  have hkeysA : ((todo_items.foldl mergeStep
      (buildOverrideMap (A.map (fun k => vlookupOv m1 k)), 0, 0)).1).map Prod.fst = A := by
    rw [hk2]
    exact hkeys0'
  have hsorted2 : List.insertionSort keyLe A = A := List.Sorted.insertionSort_eq hsortedA
  refine ⟨?_, ?_, ?_⟩
  · have hc2 : (cmd_merge (cmd_merge override_items todo_items).1 todo_items).1 =
        (List.insertionSort keyLe (((todo_items.foldl mergeStep
          (buildOverrideMap (A.map (fun k => vlookupOv m1 k)), 0, 0)).1).map Prod.fst)).map
          (fun k => vlookupOv ((todo_items.foldl mergeStep
            (buildOverrideMap (A.map (fun k => vlookupOv m1 k)), 0, 0)).1) k) := by
      rw [hitems1]
      rfl
    rw [hc2, hkeysA, hsorted2, hitems1]
    exact List.map_congr_left hvals
  · have hc2a : (cmd_merge (cmd_merge override_items todo_items).1 todo_items).2.1 =
        (todo_items.foldl mergeStep
          (buildOverrideMap (A.map (fun k => vlookupOv m1 k)), 0, 0)).2.1 := by
      rw [hitems1]
      rfl
    rw [hc2a, ha2]
  · have hc2b : (cmd_merge (cmd_merge override_items todo_items).1 todo_items).2.2 =
        (todo_items.foldl mergeStep
          (buildOverrideMap (A.map (fun k => vlookupOv m1 k)), 0, 0)).2.2 := by
      rw [hitems1]
      rfl
    rw [hc2b, hu2]
    show (0 : Nat) + (todo_items.filter hasGoodId).length =
      (todo_items.filter hasGoodId).length
    omega

/-- Witness for the amended claim C7 at a concrete input. -/
theorem C7_witness :
    (cmd_merge (cmd_merge [] todoC7).1 todoC7).1 = (cmd_merge [] todoC7).1 ∧
    (cmd_merge (cmd_merge [] todoC7).1 todoC7).2.1 = 0 ∧
    (cmd_merge (cmd_merge [] todoC7).1 todoC7).2.2 = (todoC7.filter hasGoodId).length :=
  C7_amended_merge_idem [] todoC7 (by
    intro t ht
    unfold activeRank
    rcases List.mem_cons.mp ht with h | h2
    · rw [h]; decide
    · rcases List.mem_cons.mp h2 with h | h
      · rw [h]; decide
      · cases h)

end Pm2Uigf
